import Mathlib

/-!
Verification of the DigitalTwin metamodel parser/resolver
(`src/DigitalTwin/DigitalTwinMetaModelGraph.ts`) and diagnostics engine
(`src/DigitalTwin/DigitalTwinDiagnostic.ts`) of the vscode-iot-workbench
repository, as a shallow embedding in Lean 4.

Conventions of the embedding:
* JavaScript arrays of strings become `List String`; JS objects used as
  string-keyed maps become association lists `List (String × α)` whose
  `lookup` returns the first binding (JS objects have unique keys, and
  assignment is modelled by prepending, which shadows older bindings the
  way assignment overwrites).
* The per-instance memoization caches of `DigitalTwinMetaModelParser`
  become an explicit `PCache` record threaded through the resolver
  functions in the exact mutation order of the source.
* The recursive graph traversals of the source have no termination
  guarantee (the caches are only written after the recursive calls
  return), so the embedded functions take a `fuel : Nat` argument and
  return `none` when the recursion does not bottom out within `fuel`
  nested calls.  A source invocation terminates iff some fuel makes the
  embedded function return `some`.
* JS truthiness tests on strings (`if (label)`) are modelled by
  `String.isEmpty` checks; truthiness on cached arrays is always true in
  the source (even `[]` is truthy), so a cache lookup returning `some`
  is always a cache hit.
-/

set_option maxHeartbeats 1000000
set_option maxRecDepth 8192

namespace DTW

/-- Helper of `uniqFirst`: keep the elements not yet seen, in order,
remembering the seen ones. -/
def uniqFirstAux (seen : List String) : List String → List String
  | [] => []
  | x :: xs =>
    if seen.contains x then uniqFirstAux seen xs
    else x :: uniqFirstAux (x :: seen) xs

/-- `lodash.uniq`: keep the first occurrence of every element, dropping
later duplicates. -/
def uniqFirst (xs : List String) : List String :=
  uniqFirstAux [] xs

/-- `Array.prototype.sort()` with the default comparator sorts strings
lexicographically.  The source only ever sorts duplicate-free lists
(output of `uniq`), on which every correct sort produces the same,
uniquely determined result, so a structural insertion sort is a faithful
model. -/
def sortStrings (xs : List String) : List String :=
  List.insertionSort (· ≤ ·) xs

/-- `uniq(xs).sort()` as used by `getPropertiesFromId` and
`getTypesFromId`. -/
def dedupSort (xs : List String) : List String :=
  sortStrings (uniqFirst xs)

/-- JS `String.prototype.startsWith`, over the character list (kernel
reducible, unlike the byte-position-based core implementation). -/
def jsStartsWith (s pre : String) : Bool :=
  pre.toList.isPrefixOf s.toList

/-- JS `String.prototype.endsWith` / an anchored-suffix regex test. -/
def jsEndsWith (s suf : String) : Bool :=
  suf.toList.isSuffixOf s.toList

/-- JS `String.prototype.substr(n)`: drop the first `n` characters. -/
def jsDropChars (s : String) (n : Nat) : String :=
  String.mk (s.toList.drop n)

/-- JS `indexOf(c) !== -1` for a single character. -/
def jsContainsChar (s : String) (c : Char) : Bool :=
  s.toList.contains c

/-- JS `String.prototype.toLowerCase` (ASCII, which is all the engine
compares). -/
def jsToLower (s : String) : String :=
  String.mk (s.toList.map Char.toLower)

/-- Helper of `jsSplitOn`: split at the separator, accumulating the
current segment in reverse. -/
def splitOnCharAux (sep : Char) : List Char → List Char → List String
  | [], acc => [String.mk acc.reverse]
  | ch :: cs, acc =>
    if ch = sep then String.mk acc.reverse :: splitOnCharAux sep cs []
    else splitOnCharAux sep cs (ch :: acc)

/-- JS `String.prototype.split` with a one-character separator. -/
def jsSplitOn (s : String) (sep : Char) : List String :=
  splitOnCharAux sep s.toList []

/-- A value of the `@context` map of a document context: either a literal
suffix string or an object `{'@id': ..., '@container'?: ...}`.
Modelled from the spec: the TypeScript type `DigitalTwinMetaModelContext`
lives in `DigitalTwinMetaModelUtility.ts`, which is not part of the
sources; the spec (§3, DocumentContext) describes it as "a mapping from
short name (string) to either a literal suffix string or an object
`{ '@id': string, '@container'?: '@language' }`, plus a required `@vocab`
base-URI string". -/
inductive CtxValue where
  | str (suffix : String)
  | obj (id : String) (container : Option String)
  deriving DecidableEq, Repr

/-- The `@id` field of an object entry, or the literal string itself:
the expression `typeof v === 'string' ? v : v['@id']` that the parser
uses everywhere. -/
def CtxValue.idOf : CtxValue → String
  | .str s => s
  | .obj i _ => i

/-- Modelled from the spec: a document context, holding the `@vocab`
base URI and the short-name mapping (iteration order of the association
list models the JS object key order). -/
structure DigitalTwinMetaModelContext where
  vocab : String
  entries : List (String × CtxValue)
  deriving DecidableEq, Repr

/-- `GraphNode` of `DigitalTwinMetaModelGraph.ts`. -/
structure GraphNode where
  Id : String
  Value : Option String := none
  deriving DecidableEq, Repr

/-- `GraphEdge` of `DigitalTwinMetaModelGraph.ts`. -/
structure GraphEdge where
  SourceNode : GraphNode
  TargetNode : GraphNode
  Label : String
  deriving DecidableEq, Repr

/-- `DigitalTwinMetaModelGraph` of `DigitalTwinMetaModelGraph.ts`. -/
structure DigitalTwinMetaModelGraph where
  Nodes : List GraphNode
  Edges : List GraphEdge
  deriving DecidableEq, Repr

-- The static `LABEL` table of `DigitalTwinMetaModelParser`.
set_option linter.dupNamespace false

namespace LABEL

def DOMAIN : String := "http://www.w3.org/2000/01/rdf-schema#domain"
def LABEL : String := "http://www.w3.org/2000/01/rdf-schema#label"
def SUBCLASS : String := "http://www.w3.org/2000/01/rdf-schema#subClassOf"
def RANGE : String := "http://www.w3.org/2000/01/rdf-schema#range"
def TYPE : String := "http://www.w3.org/1999/02/22-rdf-syntax-ns#type"
def COMMENT : String := "http://www.w3.org/2000/01/rdf-schema#comment"

end LABEL

/-- The fixed `LANGUAGE_CODES` table of `DigitalTwinMetaModelGraph.ts`,
transcribed verbatim (including its duplicate entries and its one
out-of-order entry `"ts"` after `"tt-RU"`). -/
def LANGUAGE_CODES : List String := [
  "af", "af-ZA", "ar", "ar-AE", "ar-BH", "ar-DZ", "ar-EG", "ar-IQ", "ar-JO", "ar-KW",
  "ar-LB", "ar-LY", "ar-MA", "ar-OM", "ar-QA", "ar-SA", "ar-SY", "ar-TN", "ar-YE", "az",
  "az-AZ", "az-AZ", "be", "be-BY", "bg", "bg-BG", "bs-BA", "ca", "ca-ES", "cs",
  "cs-CZ", "cy", "cy-GB", "da", "da-DK", "de", "de-AT", "de-CH", "de-DE", "de-LI",
  "de-LU", "dv", "dv-MV", "el", "el-GR", "en", "en-AU", "en-BZ", "en-CA", "en-CB",
  "en-GB", "en-IE", "en-JM", "en-NZ", "en-PH", "en-TT", "en-US", "en-ZA", "en-ZW", "eo",
  "es", "es-AR", "es-BO", "es-CL", "es-CO", "es-CR", "es-DO", "es-EC", "es-ES", "es-ES",
  "es-GT", "es-HN", "es-MX", "es-NI", "es-PA", "es-PE", "es-PR", "es-PY", "es-SV", "es-UY",
  "es-VE", "et", "et-EE", "eu", "eu-ES", "fa", "fa-IR", "fi", "fi-FI", "fo",
  "fo-FO", "fr", "fr-BE", "fr-CA", "fr-CH", "fr-FR", "fr-LU", "fr-MC", "gl", "gl-ES",
  "gu", "gu-IN", "he", "he-IL", "hi", "hi-IN", "hr", "hr-BA", "hr-HR", "hu",
  "hu-HU", "hy", "hy-AM", "id", "id-ID", "is", "is-IS", "it", "it-CH", "it-IT",
  "ja", "ja-JP", "ka", "ka-GE", "kk", "kk-KZ", "kn", "kn-IN", "ko", "ko-KR",
  "kok", "kok-IN", "ky", "ky-KG", "lt", "lt-LT", "lv", "lv-LV", "mi", "mi-NZ",
  "mk", "mk-MK", "mn", "mn-MN", "mr", "mr-IN", "ms", "ms-BN", "ms-MY", "mt",
  "mt-MT", "nb", "nb-NO", "nl", "nl-BE", "nl-NL", "nn-NO", "ns", "ns-ZA", "pa",
  "pa-IN", "pl", "pl-PL", "ps", "ps-AR", "pt", "pt-BR", "pt-PT", "qu", "qu-BO",
  "qu-EC", "qu-PE", "ro", "ro-RO", "ru", "ru-RU", "sa", "sa-IN", "se", "se-FI",
  "se-FI", "se-FI", "se-NO", "se-NO", "se-NO", "se-SE", "se-SE", "se-SE", "sk", "sk-SK",
  "sl", "sl-SI", "sq", "sq-AL", "sr-BA", "sr-BA", "sr-SP", "sr-SP", "sv", "sv-FI",
  "sv-SE", "sw", "sw-KE", "syr", "syr-SY", "ta", "ta-IN", "te", "te-IN", "th",
  "th-TH", "tl", "tl-PH", "tn", "tn-ZA", "tr", "tr-TR", "tt", "tt-RU", "ts",
  "uk", "uk-UA", "ur", "ur-PK", "uz", "uz-UZ", "uz-UZ", "vi", "vi-VN", "xh",
  "xh-ZA", "zh", "zh-CN", "zh-HK", "zh-MO", "zh-SG", "zh-TW", "zu", "zu-ZA"]

namespace DigitalTwinMetaModelParser

/-- `getIdFromShortName`: look the short name up in the `@context` map;
a string entry or an object entry contributes `@vocab + suffix`. -/
def getIdFromShortName (dtContext : DigitalTwinMetaModelContext)
    (shortName : String) : Option String :=
  match dtContext.entries.lookup shortName with
  | some v => some (dtContext.vocab ++ v.idOf)
  | none => none

/-- `getIdFromLabel`: the active implementation is plain concatenation
`@vocab + label` (the graph-search alternative is commented out in the
source). -/
def getIdFromLabel (dtContext : DigitalTwinMetaModelContext)
    (label : String) : String :=
  dtContext.vocab ++ label

/-- `getIdFromType`: resolve the type name through the context when a
(truthy) entry exists, otherwise fall back to the type name itself, then
concatenate with `@vocab` via `getIdFromLabel`. -/
def getIdFromType (dtContext : DigitalTwinMetaModelContext)
    (type : String) : String :=
  let label :=
    match dtContext.entries.lookup type with
    | some v => if v.idOf.isEmpty then type else v.idOf
    | none => type
  getIdFromLabel dtContext label

/-- First context entry whose resolved full id (`@vocab + suffix`)
equals `id`. -/
def findKeyByFullId (vocab : String) (id : String) :
    List (String × CtxValue) → Option String
  | [] => none
  | (key, item) :: rest =>
    if vocab ++ item.idOf = id then some key else findKeyByFullId vocab id rest

/-- `getPropertyNameFromId`: reverse lookup over the context entries;
falls back to the id itself when nothing matches.  (The source memoizes
this pure function of the context in `cache.PropertyNameFromId`; the
cache never holds anything but the value computed here, so it is
modelled transparently.) -/
def getPropertyNameFromId (dtContext : DigitalTwinMetaModelContext)
    (id : String) : String :=
  match findKeyByFullId dtContext.vocab id dtContext.entries with
  | some key => key
  | none => id

/-- `getLabelFromId`: strip the `@vocab` prefix when present and
nonempty, otherwise return the id itself. -/
def getLabelFromId (dtContext : DigitalTwinMetaModelContext)
    (id : String) : String :=
  let label :=
    if jsStartsWith id dtContext.vocab then jsDropChars id dtContext.vocab.length
    else ""
  if label.isEmpty then id else label

/-- First context entry whose suffix (`typeof item === 'string' ? item :
item['@id']`) equals `label`. -/
def findKeyBySuffix (label : String) :
    List (String × CtxValue) → Option String
  | [] => none
  | (key, item) :: rest =>
    if item.idOf = label then some key else findKeyBySuffix label rest

/-- `getShortNameFromLabel`: reverse lookup by suffix; when nothing
matches, a slash-free label is returned as its own short name and a
label containing a slash yields `null`.  (Memoized in
`cache.ShortNameFromLabel`; modelled transparently like
`getPropertyNameFromId`.) -/
def getShortNameFromLabel (dtContext : DigitalTwinMetaModelContext)
    (label : String) : Option String :=
  match findKeyBySuffix label dtContext.entries with
  | some key => some key
  | none =>
    if jsContainsChar label (Char.ofNat 47) then none else some label

/-- Iteration of `getShortNameFromId` over the context entries: skip
keys starting with `@`, return the first key whose resolved full id
matches. -/
def findShortNameEntry (vocab : String) (id : String) :
    List (String × CtxValue) → Option String
  | [] => none
  | (key, item) :: rest =>
    if jsStartsWith key "@" then findShortNameEntry vocab id rest
    else if vocab ++ item.idOf = id then some key
    else findShortNameEntry vocab id rest

/-- `getShortNameFromId`: context reverse lookup (skipping `@`-keys),
then the RDF-schema fallback (`id.split('/').pop()`), then the
`@vocab`-prefix fallback, then the id itself. -/
def getShortNameFromId (dtContext : DigitalTwinMetaModelContext)
    (id : String) : String :=
  match findShortNameEntry dtContext.vocab id dtContext.entries with
  | some key => key
  | none =>
    if jsStartsWith id "http://www.w3.org" then
      (jsSplitOn id (Char.ofNat 47)).getLastD ""
    else if jsStartsWith id dtContext.vocab then
      jsDropChars id dtContext.vocab.length
    else
      id

/-- Iteration of `isInternationalizationFromId`: the first object-valued
non-`@` entry whose resolved id matches decides the answer by its
`@container` field. -/
def findIntlEntry (vocab : String) (id : String) :
    List (String × CtxValue) → Bool
  | [] => false
  | (key, item) :: rest =>
    if jsStartsWith key "@" then findIntlEntry vocab id rest
    else
      match item with
      | .str _ => findIntlEntry vocab id rest
      | .obj i container =>
        if id = vocab ++ i then container = some "@language"
        else findIntlEntry vocab id rest

/-- `isInternationalizationFromId`: does the context flag this id with
`'@container': '@language'`? -/
def isInternationalizationFromId (dtContext : DigitalTwinMetaModelContext)
    (id : String) : Bool :=
  findIntlEntry dtContext.vocab id dtContext.entries

end DigitalTwinMetaModelParser

/-- An element of the result of `getTypedPropertiesFromId`:
`{label, required, type}`. -/
structure TypedProperty where
  label : String
  required : Bool
  type : String
  deriving DecidableEq, Repr

/-- The per-instance memoization caches of `DigitalTwinMetaModelParser`
(the `cache` field), restricted to the members the embedded operations
touch.  The string-valued caches (`PropertyNameFromId`,
`ShortNameFromLabel`, `CommnetFromId`, `IdFromLabel`) memoize pure
functions of the fixed context only and are modelled transparently. -/
structure PCache where
  PropertiesFromId : List (String × List String) := []
  TypesFromId : List (String × List String) := []
  StringValuesFromId : List (String × List String) := []
  ValueTypesFromId : List (String × List String) := []
  TypedPropertiesFromId : List (String × List TypedProperty) := []
  deriving DecidableEq, Repr

/-- The fresh cache of a newly constructed parser instance. -/
def emptyCache : PCache := {}

def PCache.insertProps (st : PCache) (id : String) (v : List String) : PCache :=
  { st with PropertiesFromId := (id, v) :: st.PropertiesFromId }

def PCache.insertTypes (st : PCache) (id : String) (v : List String) : PCache :=
  { st with TypesFromId := (id, v) :: st.TypesFromId }

def PCache.insertStringValues (st : PCache) (id : String) (v : List String) : PCache :=
  { st with StringValuesFromId := (id, v) :: st.StringValuesFromId }

def PCache.insertValueTypes (st : PCache) (id : String) (v : List String) : PCache :=
  { st with ValueTypesFromId := (id, v) :: st.ValueTypesFromId }

def PCache.insertTyped (st : PCache) (id : String) (v : List TypedProperty) : PCache :=
  { st with TypedPropertiesFromId := (id, v) :: st.TypedPropertiesFromId }

namespace DigitalTwinMetaModelParser

mutual

/-- `getPropertiesFromId`: cached graph traversal collecting the short
names of all properties whose `domain` edge targets `id`, together with
the (recursively resolved) properties of every `subClassOf` superclass;
the internationalization case short-circuits to the language-code list.
The result is `uniq(...).sort()`-normalized before caching. -/
def getPropertiesFromId (g : DigitalTwinMetaModelGraph)
    (dtContext : DigitalTwinMetaModelContext) :
    Nat → PCache → String → Option (List String × PCache)
  | 0, _, _ => none
  | fuel + 1, st, id =>
    match st.PropertiesFromId.lookup id with
    | some cached => some (cached, st)
    | none =>
      if isInternationalizationFromId dtContext id then
        let keys := dedupSort LANGUAGE_CODES
        some (keys, st.insertProps id keys)
      else
        match goProperties g dtContext fuel id g.Edges st with
        | none => none
        | some (properties, st1) =>
          let keys := dedupSort properties
          some (keys, st1.insertProps id keys)
termination_by fuel st id => (fuel, 0)

/-- The `for (const edge of this.graph.Edges)` loop of
`getPropertiesFromId`, threading the cache in source order. -/
def goProperties (g : DigitalTwinMetaModelGraph)
    (dtContext : DigitalTwinMetaModelContext) (fuel : Nat) (id : String) :
    List GraphEdge → PCache → Option (List String × PCache)
  | [], st => some ([], st)
  | edge :: rest, st =>
    if edge.TargetNode.Id = id ∧ edge.Label = LABEL.DOMAIN then
      match goProperties g dtContext fuel id rest st with
      | none => none
      | some (props, st1) =>
        some (getPropertyNameFromId dtContext edge.SourceNode.Id :: props, st1)
    else if edge.SourceNode.Id = id ∧ edge.Label = LABEL.SUBCLASS then
      match getPropertiesFromId g dtContext fuel st edge.TargetNode.Id with
      | none => none
      | some (sub, st1) =>
        match goProperties g dtContext fuel id rest st1 with
        | none => none
        | some (props, st2) => some (sub ++ props, st2)
    else
      goProperties g dtContext fuel id rest st
termination_by edges st => (fuel, edges.length + 1)

end

mutual

/-- `getTypesFromId`: cached traversal over outgoing `range` edges and
incoming `subClassOf` edges, with a label-derived single-element
fallback when no edge matches; `uniq(...).sort()`-normalized. -/
def getTypesFromId (g : DigitalTwinMetaModelGraph)
    (dtContext : DigitalTwinMetaModelContext) :
    Nat → PCache → String → Option (List String × PCache)
  | 0, _, _ => none
  | fuel + 1, st, id =>
    match st.TypesFromId.lookup id with
    | some cached => some (cached, st)
    | none =>
      match goTypes g dtContext fuel id g.Edges st with
      | none => none
      | some (types0, st1) =>
        let types1 :=
          if types0.isEmpty then
            let label := getLabelFromId dtContext id
            match getShortNameFromLabel dtContext label with
            | some shortName =>
              if shortName.isEmpty then types0 else types0 ++ [shortName]
            | none => types0
          else types0
        let types := dedupSort types1
        some (types, st1.insertTypes id types)
termination_by fuel st id => (fuel, 0)

/-- The edge loop of `getTypesFromId`: the two `if` statements of the
body run in sequence for every edge. -/
def goTypes (g : DigitalTwinMetaModelGraph)
    (dtContext : DigitalTwinMetaModelContext) (fuel : Nat) (id : String) :
    List GraphEdge → PCache → Option (List String × PCache)
  | [], st => some ([], st)
  | edge :: rest, st =>
    let step1 : Option (List String × PCache) :=
      if edge.SourceNode.Id = id ∧ edge.Label = LABEL.RANGE then
        getTypesFromId g dtContext fuel st edge.TargetNode.Id
      else some ([], st)
    match step1 with
    | none => none
    | some (c1, st1) =>
      let step2 : Option (List String × PCache) :=
        if edge.TargetNode.Id = id ∧ edge.Label = LABEL.SUBCLASS then
          getTypesFromId g dtContext fuel st1 edge.SourceNode.Id
        else some ([], st1)
      match step2 with
      | none => none
      | some (c2, st2) =>
        match goTypes g dtContext fuel id rest st2 with
        | none => none
        | some (cs, st3) => some (c1 ++ c2 ++ cs, st3)
termination_by edges st => (fuel, edges.length + 1)

end

mutual

/-- `getStringValuesFromId`: cached traversal following outgoing `range`
edges, incoming `subClassOf` edges and incoming `type` edges; a concept
with an incoming `domain` edge and no collected values is suppressed as
an object; an edge-less concept falls back to its own short name. -/
def getStringValuesFromId (g : DigitalTwinMetaModelGraph)
    (dtContext : DigitalTwinMetaModelContext) :
    Nat → PCache → String → Option (List String × PCache)
  | 0, _, _ => none
  | fuel + 1, st, id =>
    match st.StringValuesFromId.lookup id with
    | some cached => some (cached, st)
    | none =>
      match goStringValues g dtContext fuel id g.Edges st with
      | none => none
      | some (values, hasProperty, st1) =>
        if values.isEmpty then
          if hasProperty then
            some ([], st1.insertStringValues id [])
          else
            let shortName := getShortNameFromId dtContext id
            let values1 := if shortName.isEmpty then [] else [shortName]
            some (values1, st1.insertStringValues id values1)
        else
          some (values, st1.insertStringValues id values)
termination_by fuel st id => (fuel, 0)

/-- The edge loop of `getStringValuesFromId`: the four `if` statements
run in sequence for every edge; the middle Boolean of the result is the
`hasProperty` flag. -/
def goStringValues (g : DigitalTwinMetaModelGraph)
    (dtContext : DigitalTwinMetaModelContext) (fuel : Nat) (id : String) :
    List GraphEdge → PCache → Option (List String × Bool × PCache)
  | [], st => some ([], false, st)
  | edge :: rest, st =>
    let hasProp : Bool := edge.TargetNode.Id = id ∧ edge.Label = LABEL.DOMAIN
    let step1 : Option (List String × PCache) :=
      if edge.SourceNode.Id = id ∧ edge.Label = LABEL.RANGE then
        getStringValuesFromId g dtContext fuel st edge.TargetNode.Id
      else some ([], st)
    match step1 with
    | none => none
    | some (c1, st1) =>
      let step2 : Option (List String × PCache) :=
        if edge.TargetNode.Id = id ∧ edge.Label = LABEL.SUBCLASS then
          getStringValuesFromId g dtContext fuel st1 edge.SourceNode.Id
        else some ([], st1)
      match step2 with
      | none => none
      | some (c2, st2) =>
        let step3 : Option (List String × PCache) :=
          if edge.TargetNode.Id = id ∧ edge.Label = LABEL.TYPE then
            getStringValuesFromId g dtContext fuel st2 edge.SourceNode.Id
          else some ([], st2)
        match step3 with
        | none => none
        | some (c3, st3) =>
          match goStringValues g dtContext fuel id rest st3 with
          | none => none
          | some (cs, hasPropRest, st4) =>
            some (c1 ++ c2 ++ c3 ++ cs, hasProp || hasPropRest, st4)
termination_by edges st => (fuel, edges.length + 1)

end

/-- The `switch` of `getValueTypesFromId` mapping raw RDF value strings
to primitive type names; unrecognized values are dropped. -/
def rawValueTypeTable : String → Option String
  | "XMLSchema#boolean" => some "boolean"
  | "XMLSchema#int" => some "int"
  | "XMLSchema#long" => some "long"
  | "XMLSchema#float" => some "float"
  | "XMLSchema#double" => some "double"
  | "XMLSchema#string" => some "string"
  | _ => none

/-- `getValueTypesFromId`: map the string values of the concept through
`rawValueTypeTable`, caching the result (an empty id short-circuits to
`[]` without caching). -/
def getValueTypesFromId (g : DigitalTwinMetaModelGraph)
    (dtContext : DigitalTwinMetaModelContext) (fuel : Nat) (st : PCache)
    (id : String) : Option (List String × PCache) :=
  if id.isEmpty then some ([], st)
  else
    match st.ValueTypesFromId.lookup id with
    | some cached => some (cached, st)
    | none =>
      match getStringValuesFromId g dtContext fuel st id with
      | none => none
      | some (values, st1) =>
        let valueTypes := values.filterMap rawValueTypeTable
        some (valueTypes, st1.insertValueTypes id valueTypes)

/-- `isArrayFromShortName`: fixed allow-list of array-valued property
names. -/
def isArrayFromShortName (shortName : String) : Bool :=
  ["contents", "schemas", "fields", "enumValues", "implements"].contains shortName

/-- The hardcoded required-properties table
`getRequiredPropertiesFromType`. -/
def getRequiredPropertiesFromType : String → List String
  | "Interface" => ["@id", "@type", "@context"]
  | "Telemetry" => ["@type", "name", "schema"]
  | "Property" => ["@type", "name", "schema"]
  | "Command" => ["@type", "name"]
  | "Array" => ["@type", "elementSchema"]
  | "Enum" => ["@type", "enumValues"]
  | "EnumValue" => ["name"]
  | "Map" => ["@type", "mapKey", "mapValue"]
  | "MapKey" => ["name", "schema"]
  | "MapValue" => ["name", "schema"]
  | "Object" => ["@type", "fields"]
  | "SchemaField" => ["name", "schema"]
  | "Boolean" => ["@type"]
  | "Bytes" => ["@type"]
  | "Date" => ["@type"]
  | "DateTime" => ["@type"]
  | "Duration" => ["@type"]
  | "Float" => ["@type"]
  | "Integer" => ["@type"]
  | "Long" => ["@type"]
  | "String" => ["@type"]
  | "Time" => ["@type"]
  | "CapabilityModel" => ["@id", "@type", "@context", "implements"]
  | "InterfaceInstance" => ["name", "schema"]
  | _ => []

/-- The key loop of `getTypedPropertiesFromId`: resolve each property
short name, skip unresolvable ones, and build the typed descriptor
(`getValueTypesFromId` is only invoked when the ternary does not
short-circuit on the array allow-list). -/
def typedPropsLoop (g : DigitalTwinMetaModelGraph)
    (dtContext : DigitalTwinMetaModelContext) (fuel : Nat)
    (requiredList : List String) :
    List String → PCache → Option (List TypedProperty × PCache)
  | [], st => some ([], st)
  | key :: rest, st =>
    match getIdFromShortName dtContext key with
    | none => typedPropsLoop g dtContext fuel requiredList rest st
    | some id =>
      if id.isEmpty then typedPropsLoop g dtContext fuel requiredList rest st
      else
        let step : Option (String × PCache) :=
          if isArrayFromShortName key then some ("array", st)
          else
            match getValueTypesFromId g dtContext fuel st id with
            | none => none
            | some (vts, st1) => some (vts.headD "", st1)
        match step with
        | none => none
        | some (ty, st1) =>
          match typedPropsLoop g dtContext fuel requiredList rest st1 with
          | none => none
          | some (items, st2) =>
            some ({ label := key, required := requiredList.contains key,
                    type := ty } :: items, st2)

/-- `getTypedPropertiesFromId`: one `{label, required, type}` entry per
property short name; the internationalization case emits one optional
string-typed entry per (raw) language code. -/
def getTypedPropertiesFromId (g : DigitalTwinMetaModelGraph)
    (dtContext : DigitalTwinMetaModelContext) (fuel : Nat) (st : PCache)
    (id : String) : Option (List TypedProperty × PCache) :=
  match st.TypedPropertiesFromId.lookup id with
  | some cached => some (cached, st)
  | none =>
    if isInternationalizationFromId dtContext id then
      let results := LANGUAGE_CODES.map
        (fun code => { label := code, required := false, type := "string" })
      some (results, st.insertTyped id results)
    else
      match getPropertiesFromId g dtContext fuel st id with
      | none => none
      | some (keys, st1) =>
        let type := getShortNameFromId dtContext id
        let requiredList :=
          if type.isEmpty then [] else getRequiredPropertiesFromType type
        match typedPropsLoop g dtContext fuel requiredList keys st1 with
        | none => none
        | some (results, st2) => some (results, st2.insertTyped id results)

/-- `getTypedPropertiesFromType`: resolve the type name to an id and
delegate; a falsy id yields `[]`. -/
def getTypedPropertiesFromType (g : DigitalTwinMetaModelGraph)
    (dtContext : DigitalTwinMetaModelContext) (fuel : Nat) (st : PCache)
    (type : String) : Option (List TypedProperty × PCache) :=
  let id := getIdFromType dtContext type
  if id.isEmpty then some ([], st)
  else getTypedPropertiesFromId g dtContext fuel st id

/-- `getPropertiesFromType`: resolve the type name to an id and
delegate; a falsy id yields `[]`. -/
def getPropertiesFromType (g : DigitalTwinMetaModelGraph)
    (dtContext : DigitalTwinMetaModelContext) (fuel : Nat) (st : PCache)
    (type : String) : Option (List String × PCache) :=
  let id := getIdFromType dtContext type
  if id.isEmpty then some ([], st)
  else getPropertiesFromId g dtContext fuel st id

/-- `getStringValuesFromShortName`: the id
`http://azureiot.com/v1/classes/InterfaceInstance/schema` is
special-cased to `['XMLSchema#string']` before any graph traversal; an
unresolvable short name yields `[]`. -/
def getStringValuesFromShortName (g : DigitalTwinMetaModelGraph)
    (dtContext : DigitalTwinMetaModelContext) (fuel : Nat) (st : PCache)
    (shortName : String) : Option (List String × PCache) :=
  match getIdFromShortName dtContext shortName with
  | some id =>
    if id = "http://azureiot.com/v1/classes/InterfaceInstance/schema" then
      some (["XMLSchema#string"], st)
    else if id.isEmpty then some ([], st)
    else getStringValuesFromId g dtContext fuel st id
  | none => some ([], st)

/-- The two static regex rules of `getStringValuePattern`. -/
inductive PatternRule where
  | urnRule
  | nameRule
  deriving DecidableEq, Repr

/-- `getStringValuePattern`: `@id` and `schema` carry the URN rule,
`name` the word rule, everything else no rule. -/
def getStringValuePattern : String → Option PatternRule
  | "@id" => some .urnRule
  | "name" => some .nameRule
  | "schema" => some .urnRule
  | _ => none

/-- A character matched by `[a-zA-Z0-9_]`. -/
def isWordChar (c : Char) : Bool :=
  c.isAlpha || c.isDigit || c = Char.ofNat 95

/-- A nonempty run of word characters (`[a-zA-Z0-9_]+`). -/
def isWordSeg (s : String) : Bool :=
  !s.isEmpty && s.toList.all isWordChar

/-- A nonempty run of digits. -/
def isDigitSeg (s : String) : Bool :=
  !s.isEmpty && s.toList.all Char.isDigit

/-- The anchored URN regex of the source, expressed over the
colon-separated segments of the candidate: `urn`, then at least two
word segments, then a digit segment. -/
def matchesUrnPattern (s : String) : Bool :=
  match jsSplitOn s (Char.ofNat 58) with
  | "urn" :: rest =>
    decide (rest.length ≥ 3) && rest.dropLast.all isWordSeg
      && isDigitSeg (rest.getLastD "")
  | _ => false

/-- The anchored word regex of the source. -/
def matchesNamePattern (s : String) : Bool :=
  isWordSeg s

/-- `RegExp.prototype.test` for the two static rules. -/
def patternTest : PatternRule → String → Bool
  | .urnRule, s => matchesUrnPattern s
  | .nameRule, s => matchesNamePattern s

/-- `getStringValueLengthRange`: `@id` and `schema` are constrained to
length 0-256. -/
def getStringValueLengthRange : String → Option (Nat × Nat)
  | "@id" => some (0, 256)
  | "schema" => some (0, 256)
  | _ => none

end DigitalTwinMetaModelParser

namespace Json

/-- A half-open-ish character-offset span: the source positions of the
first and last character of a token or value (the diagnostics layer
computes the exclusive end as `endIndex + 1`).  Modelled from the spec:
the `JSON.ts` module of the repository is not among the sources; the
spec (§4.2) requires "a JSON value tree with source-offset spans
attached to every node and property-name token". -/
structure Span where
  startIndex : Nat
  endIndex : Nat
  deriving DecidableEq, Repr

/-- `Json.ValueKind` of the missing `JSON.ts`. -/
inductive ValueKind where
  | ObjectValue
  | ArrayValue
  | StringValue
  | NumberValue
  | BooleanValue
  | NullValue
  deriving DecidableEq, Repr

/-- A property-name token with its span. -/
structure PropName where
  name : String
  span : Span
  deriving DecidableEq, Repr

/-- Modelled from the spec: the parsed JSON value tree of the missing
`JSON.ts`, with spans on every node.  Numeric literals are carried as
exact rationals: every JS numeric literal the integrality check cares
about (`Math.floor(value) !== value`) is decided by whether the literal
has a fractional part, which the rational value represents exactly. -/
inductive Value where
  | obj (span : Span) (props : List (PropName × Value))
  | arr (span : Span) (elements : List Value)
  | str (span : Span) (value : String)
  | num (span : Span) (value : Rat)
  | bool (span : Span) (value : Bool)
  | null (span : Span)

def Value.valueKind : Value → ValueKind
  | .obj _ _ => .ObjectValue
  | .arr _ _ => .ArrayValue
  | .str _ _ => .StringValue
  | .num _ _ => .NumberValue
  | .bool _ _ => .BooleanValue
  | .null _ => .NullValue

def Value.span : Value → Span
  | .obj s _ => s
  | .arr s _ => s
  | .str s _ => s
  | .num s _ => s
  | .bool s _ => s
  | .null s => s

/-- `getPropertyValue`: first property with the given name (JS object
keys are unique in well-formed documents). -/
def lookupProp (name : String) : List (PropName × Value) → Option Value
  | [] => none
  | (pn, v) :: rest => if pn.name = name then some v else lookupProp name rest

/-- `hasProperty`. -/
def hasProp (props : List (PropName × Value)) (name : String) : Bool :=
  (lookupProp name props).isSome

/-- `toFriendlyString` as the engine uses it: the unquoted text of a
string value.  The engine only applies it to string values (and, in the
degenerate `@type`-array case, to other kinds, for which the empty
string stands in). -/
def Value.toFriendlyString : Value → String
  | .str _ s => s
  | .bool _ b => cond b "true" "false"
  | _ => ""

/-- Whitespace skipper of the spec-modelled parser. -/
def skipWs : List Char → Nat → List Char × Nat
  | [], pos => ([], pos)
  | c :: cs, pos =>
    if c = ' ' ∨ c = Char.ofNat 9 ∨ c = Char.ofNat 10 ∨ c = Char.ofNat 13 then
      skipWs cs (pos + 1)
    else (c :: cs, pos)

/-- String-literal body scanner: characters until the closing quote,
one raw character after every backslash. -/
def scanString : Nat → List Char → Nat → Option (String × List Char × Nat)
  | 0, _, _ => none
  | _ + 1, [], _ => none
  | fuel + 1, c :: cs, pos =>
    if c = Char.ofNat 34 then some ("", cs, pos + 1)
    else if c = Char.ofNat 92 then
      match cs with
      | [] => none
      | e :: cs1 =>
        match scanString fuel cs1 (pos + 2) with
        | none => none
        | some (rest, cs2, pos2) => some (String.mk (e :: rest.toList), cs2, pos2)
    else
      match scanString fuel cs (pos + 1) with
      | none => none
      | some (rest, cs1, pos1) => some (String.mk (c :: rest.toList), cs1, pos1)

/-- Digit-run scanner returning the digits, the rest and the new
position. -/
def scanDigits : List Char → Nat → List Char × List Char × Nat
  | [], pos => ([], [], pos)
  | c :: cs, pos =>
    if c.isDigit then
      let (ds, rest, pos1) := scanDigits cs (pos + 1)
      (c :: ds, rest, pos1)
    else ([], c :: cs, pos)

/-- Value of a digit run. -/
def digitsToNat : List Char → Nat
  | [] => 0
  | ds => ds.foldl (fun acc c => acc * 10 + (c.toNat - 48)) 0

mutual

/-- Spec-modelled recursive-descent JSON parser producing spanned
values; `none` on any malformed input. -/
def parseValue : Nat → List Char → Nat → Option (Value × List Char × Nat)
  | 0, _, _ => none
  | fuel + 1, cs, pos =>
    match skipWs cs pos with
    | ([], _) => none
    | (c :: cs1, pos1) =>
      if c = Char.ofNat 123 then
        parseObjectBody fuel cs1 (pos1 + 1) pos1 [] true
      else if c = Char.ofNat 91 then
        parseArrayBody fuel cs1 (pos1 + 1) pos1 [] true
      else if c = Char.ofNat 34 then
        match scanString (cs1.length + 1) cs1 (pos1 + 1) with
        | none => none
        | some (s, cs2, pos2) =>
          some (.str ⟨pos1, pos2 - 1⟩ s, cs2, pos2)
      else if c.isDigit ∨ c = Char.ofNat 45 then
        let neg := c = Char.ofNat 45
        let (cs2, pos2) := if neg then (cs1, pos1 + 1) else (c :: cs1, pos1)
        match cs2 with
        | [] => none
        | d :: _ =>
          if ¬d.isDigit then none
          else
            let (ds, cs3, pos3) := scanDigits cs2 pos2
            match cs3 with
            | dot :: cs4 =>
              if dot = Char.ofNat 46 then
                let (fs, cs5, pos5) := scanDigits cs4 (pos3 + 1)
                if fs.isEmpty then none
                else
                  let q : Rat :=
                    (digitsToNat ds : Rat) + (digitsToNat fs : Rat) / ((10 : Rat) ^ fs.length)
                  some (.num ⟨pos1, pos5 - 1⟩ (if neg then -q else q), cs5, pos5)
              else
                some (.num ⟨pos1, pos3 - 1⟩
                  (if neg then -(digitsToNat ds : Rat) else (digitsToNat ds : Rat)), cs3, pos3)
            | [] =>
              some (.num ⟨pos1, pos3 - 1⟩
                (if neg then -(digitsToNat ds : Rat) else (digitsToNat ds : Rat)), cs3, pos3)
      else if (c :: cs1).take 4 = ['t', 'r', 'u', 'e'] then
        some (.bool ⟨pos1, pos1 + 3⟩ true, (c :: cs1).drop 4, pos1 + 4)
      else if (c :: cs1).take 5 = ['f', 'a', 'l', 's', 'e'] then
        some (.bool ⟨pos1, pos1 + 4⟩ false, (c :: cs1).drop 5, pos1 + 5)
      else if (c :: cs1).take 4 = ['n', 'u', 'l', 'l'] then
        some (.null ⟨pos1, pos1 + 3⟩, (c :: cs1).drop 4, pos1 + 4)
      else none

/-- Object body parser (after the opening brace); `first` is true until
a member has been parsed. -/
def parseObjectBody (fuel : Nat) (cs : List Char) (pos : Nat) (openPos : Nat)
    (acc : List (PropName × Value)) (first : Bool) :
    Option (Value × List Char × Nat) :=
  match fuel with
  | 0 => none
  | fuel + 1 =>
    match skipWs cs pos with
    | ([], _) => none
    | (c :: cs1, pos1) =>
      if c = Char.ofNat 125 then
        if first ∨ ¬acc.isEmpty then
          some (.obj ⟨openPos, pos1⟩ acc.reverse, cs1, pos1 + 1)
        else none
      else
        let (cs2, pos2) :=
          if ¬first ∧ c = ',' then
            match skipWs cs1 (pos1 + 1) with
            | (r, p) => (r, p)
          else (c :: cs1, pos1)
        if ¬first ∧ c ≠ ',' then none
        else
          match cs2 with
          | [] => none
          | q :: cs3 =>
            if q ≠ Char.ofNat 34 then none
            else
              match scanString (cs3.length + 1) cs3 (pos2 + 1) with
              | none => none
              | some (name, cs4, pos4) =>
                match skipWs cs4 pos4 with
                | ([], _) => none
                | (colon :: cs5, pos5) =>
                  if colon ≠ ':' then none
                  else
                    match parseValue fuel cs5 (pos5 + 1) with
                    | none => none
                    | some (v, cs6, pos6) =>
                      parseObjectBody fuel cs6 pos6 openPos
                        ((⟨name, ⟨pos2, pos4 - 1⟩⟩, v) :: acc) false

/-- Array body parser (after the opening bracket). -/
def parseArrayBody (fuel : Nat) (cs : List Char) (pos : Nat) (openPos : Nat)
    (acc : List Value) (first : Bool) : Option (Value × List Char × Nat) :=
  match fuel with
  | 0 => none
  | fuel + 1 =>
    match skipWs cs pos with
    | ([], _) => none
    | (c :: cs1, pos1) =>
      if c = Char.ofNat 93 then
        if first ∨ ¬acc.isEmpty then
          some (.arr ⟨openPos, pos1⟩ acc.reverse, cs1, pos1 + 1)
        else none
      else
        let (cs2, pos2) :=
          if ¬first ∧ c = ',' then
            match skipWs cs1 (pos1 + 1) with
            | (r, p) => (r, p)
          else (c :: cs1, pos1)
        if ¬first ∧ c ≠ ',' then none
        else
          match parseValue fuel cs2 pos2 with
          | none => none
          | some (v, cs3, pos3) =>
            parseArrayBody fuel cs3 pos3 openPos (v :: acc) false

end

/-- `Json.parse`: parse the whole document text; `none` when the text
is not a single well-formed JSON value (the engine treats that as "no
issues"). -/
def parse (text : String) : Option Value :=
  let cs := text.toList
  match parseValue (cs.length + 1) cs 0 with
  | none => none
  | some (v, rest, _) =>
    match skipWs rest 0 with
    | ([], _) => some v
    | _ => none

end Json

-- Modelled from the spec: `ModelType` of `constants.ts` (not among the
-- sources) — the two document kinds, whose names double as the DTDL root
-- type names.
namespace ModelType

def Interface : String := "Interface"
def CapabilityModel : String := "CapabilityModel"

end ModelType

-- Modelled from the spec: `ContextUris` of `constants.ts` (not among
-- the sources) — the fixed allowed `@context` URIs per document kind.
namespace ContextUris

def interface : String := "http://azureiot.com/v1/contexts/Interface.json"
def capabilityModel : String := "http://azureiot.com/v1/contexts/CapabilityModel.json"
def iotModel : String := "http://azureiot.com/v1/contexts/IoTModel.json"

end ContextUris

-- Modelled from the spec: `DTDLKeywords.inlineInterfaceKeyName` of
-- `DigitalTwinConstants.ts` (not among the sources) — the distinguished
-- sentinel key substituted for `schema` under `implements` so that inline
-- interface bodies are validated leniently.
namespace DTDLKeywords

def inlineInterfaceKeyName : String := "interfaceSchema"

end DTDLKeywords

/-- `Issue` of `DigitalTwinDiagnostic.ts`. -/
structure Issue where
  startIndex : Nat
  endIndex : Nat
  message : String
  deriving DecidableEq, Repr

/-- The slice of `vscode.TextDocument` the engine reads: the raw text
(`getText()`) and the file-system path (`uri.fsPath` / `fileName`). -/
structure TextDocument where
  text : String
  fsPath : String
  deriving DecidableEq, Repr

namespace DigitalTwinDiagnostic

open DigitalTwinMetaModelParser

/-- `_isValidStringValue`: membership of the value in the legal range,
optionally lower-casing both sides. -/
def isValidStringValue (value : String) (range : List String)
    (caseInsensitive : Bool) : Bool :=
  let v := if caseInsensitive then jsToLower value else value
  range.any (fun t => (if caseInsensitive then jsToLower t else t) = v)

/-- The result of `getType`: a single type name, an array of type
names, or `null`. -/
inductive TypeResult where
  | single (t : String)
  | multiple (ts : List String)
  | missing
  deriving DecidableEq, Repr

/-- The derived-type tail of `getType`: resolve the enclosing property
key through `getTypesFromId`, or fall back to the file-extension-implied
document type; only a singleton type list yields a type. -/
def getTypeDerived (g : DigitalTwinMetaModelGraph)
    (dtContext : DigitalTwinMetaModelContext) (rfuel : Nat) (st : PCache)
    (document : TextDocument) (jsonKey : Option String) :
    Option (TypeResult × PCache) :=
  match jsonKey with
  | some key =>
    match getIdFromShortName dtContext key with
    | none => some (.missing, st)
    | some id =>
      if id.isEmpty then some (.missing, st)
      else
        match getTypesFromId g dtContext rfuel st id with
        | none => none
        | some (types, st1) =>
          match types with
          | [t] => some (.single t, st1)
          | _ => some (.missing, st1)
  | none =>
    let documentType :=
      if jsEndsWith document.fsPath ".interface.json" then ModelType.Interface
      else ModelType.CapabilityModel
    some (.single documentType, st)

/-- `getType`: an explicit `@type` property of string or array kind
wins; any other shape falls through to the derived lookup. -/
def getType (g : DigitalTwinMetaModelGraph)
    (dtContext : DigitalTwinMetaModelContext) (rfuel : Nat) (st : PCache)
    (document : TextDocument) (props : List (Json.PropName × Json.Value))
    (jsonKey : Option String) : Option (TypeResult × PCache) :=
  match Json.lookupProp "@type" props with
  | some (.str _ s) => some (.single s, st)
  | some (.arr _ els) => some (.multiple (els.map Json.Value.toFriendlyString), st)
  | _ => getTypeDerived g dtContext rfuel st document jsonKey

/-- The `contents` scan of `getInvalidTypeIssues`: conflict issues for
every second (and later) valid type, and a missing-required-type issue
when none is valid. -/
def contentsScan (types : List String) (s e : Nat) :
    List String → String → List Issue
  | [], requiredType =>
    if requiredType.isEmpty then
      [⟨s, e, "Missing required type. One of types below is required:\n"
        ++ String.intercalate "," types⟩]
    else []
  | t :: ts, requiredType =>
    if types.contains t then
      (if ¬requiredType.isEmpty then
        [⟨s, e, "Conflict type: " ++ requiredType ++ " and " ++ t ++ "."⟩]
       else []) ++ contentsScan types s e ts t
    else contentsScan types s e ts requiredType

/-- The per-element loop of the array branch of
`getInvalidTypeIssues`. -/
def typeElementIssues (types typeList : List String) (jsonKey : Option String) :
    Nat → List (String × Json.Value) → List Issue
  | _, [] => []
  | index, (currentType, el) :: rest =>
    let s := el.span.startIndex
    let e := el.span.endIndex
    (if ¬types.contains currentType ∧ jsonKey ≠ some "contents" then
      [⟨s, e, "Invalid type. Valid types:\n" ++ String.intercalate "\n" types⟩]
     else if typeList.indexOf currentType ≠ index then
      [⟨s, e, currentType ++ " has already been added before."⟩]
     else []) ++ typeElementIssues types typeList jsonKey (index + 1) rest

/-- The comparison tail of `getInvalidTypeIssues`, after the valid type
list has been resolved: the inner `Option (List Issue)` is the
source's `Issue[] | null` result. -/
def invalidTypeCheck (g : DigitalTwinMetaModelGraph)
    (dtContext : DigitalTwinMetaModelContext) (rfuel : Nat) (st : PCache)
    (document : TextDocument) (objSpan : Json.Span)
    (props : List (Json.PropName × Json.Value)) (jsonKey : Option String)
    (types : List String) : Option (Option (List Issue) × PCache) :=
  match getType g dtContext rfuel st document props jsonKey with
  | none => none
  | some (.single t, st1) =>
    if ¬types.contains t then
      let sp := match Json.lookupProp "@type" props with
        | some v => v.span
        | none => objSpan
      some (some [⟨sp.startIndex, sp.endIndex,
        "Invalid type. Valid types:\n" ++ String.intercalate "\n" types⟩], st1)
    else some (none, st1)
  | some (.multiple typeList, st1) =>
    let (sp, els) := match Json.lookupProp "@type" props with
      | some (.arr s es) => (s, es)
      | some v => (v.span, [])
      | none => (objSpan, [])
    let issues :=
      (if jsonKey = some "contents" then
        contentsScan types sp.startIndex sp.endIndex typeList ""
       else []) ++
      typeElementIssues types typeList jsonKey 0 (typeList.zip els)
    if issues.isEmpty then some (none, st1) else some (some issues, st1)
  | some (.missing, st1) => some (none, st1)

/-- `getInvalidTypeIssues`: resolve the valid types for this position
(from the enclosing key or the document kind), then compare the value's
`@type` against them. -/
def getInvalidTypeIssues (g : DigitalTwinMetaModelGraph)
    (dtContext : DigitalTwinMetaModelContext) (rfuel : Nat) (st : PCache)
    (document : TextDocument) (objSpan : Json.Span)
    (props : List (Json.PropName × Json.Value)) (jsonKey : Option String) :
    Option (Option (List Issue) × PCache) :=
  match jsonKey with
  | some key =>
    match getIdFromShortName dtContext key with
    | none => some (none, st)
    | some id =>
      if id.isEmpty then some (none, st)
      else
        match getTypesFromId g dtContext rfuel st id with
        | none => none
        | some (types, st1) =>
          invalidTypeCheck g dtContext rfuel st1 document objSpan props jsonKey types
  | none =>
    let documentType :=
      if jsEndsWith document.fsPath ".interface.json" then ModelType.Interface
      else ModelType.CapabilityModel
    invalidTypeCheck g dtContext rfuel st document objSpan props jsonKey [documentType]

/-- The empty-required-array loop of
`getMissingRequiredPropertiesIssues`. -/
def emptyArrayIssues (props : List (Json.PropName × Json.Value))
    (requiredProperties : List String) : List String → List Issue
  | [] => []
  | name :: rest =>
    (if requiredProperties.contains name then
      match Json.lookupProp name props with
      | some (.arr sp els) =>
        if els.isEmpty then [⟨sp.startIndex, sp.startIndex, name ++ " cannot be empty."⟩]
        else []
      | _ => []
     else []) ++ emptyArrayIssues props requiredProperties rest

/-- `getMissingRequiredPropertiesIssues`: one aggregated issue listing
the absent required properties (with the inline-interface `@context`
exemption), then one issue per required property bound to an empty
array. -/
def getMissingRequiredPropertiesIssues (objSpan : Json.Span)
    (props : List (Json.PropName × Json.Value)) (type : String)
    (isInlineInterface : Bool) : List Issue :=
  let requiredProperties := getRequiredPropertiesFromType type
  let missing := requiredProperties.filter
    (fun rp => ¬Json.hasProp props rp ∧ ¬(isInlineInterface ∧ rp = "@context"))
  let part1 :=
    if missing.isEmpty then []
    else [⟨objSpan.startIndex, objSpan.startIndex,
      "Missing required properties:\n" ++ String.intercalate "\n" missing⟩]
  part1 ++ emptyArrayIssues props requiredProperties (props.map (fun p => p.1.name))

/-- The per-type allowed-property collection of
`getUnexpectedPropertiesIssues` in the `@type`-array case. -/
def unexpectedCollect (g : DigitalTwinMetaModelGraph)
    (dtContext : DigitalTwinMetaModelContext) (rfuel : Nat) :
    List String → PCache → Option (List String × PCache)
  | [], st => some ([], st)
  | t :: ts, st =>
    match getTypedPropertiesFromType g dtContext rfuel st t with
    | none => none
    | some (typed, st1) =>
      match unexpectedCollect g dtContext rfuel ts st1 with
      | none => none
      | some (restProps, st2) =>
        some (typed.map (fun p => p.label) ++ getRequiredPropertiesFromType t
          ++ restProps, st2)

/-- The final loop of `getUnexpectedPropertiesIssues` over the object's
property names. -/
def unexpectedLoop (allowed : List String) :
    List (Json.PropName × Json.Value) → List Issue
  | [] => []
  | (pn, _) :: rest =>
    (if pn.name ≠ "@type" ∧ pn.name ≠ "@id" ∧ ¬allowed.contains pn.name then
      [⟨pn.span.startIndex, pn.span.endIndex, pn.name ++ " is unexpected."⟩]
     else []) ++ unexpectedLoop allowed rest

/-- `getUnexpectedPropertiesIssues`: properties outside the
deduplicated union of typed and required properties of the effective
type(s), `@type`/`@id` excepted. -/
def getUnexpectedPropertiesIssues (g : DigitalTwinMetaModelGraph)
    (dtContext : DigitalTwinMetaModelContext) (rfuel : Nat) (st : PCache)
    (props : List (Json.PropName × Json.Value)) (tr : TypeResult) :
    Option (List Issue × PCache) :=
  let collected : Option (List String × PCache) :=
    match tr with
    | .multiple ts => unexpectedCollect g dtContext rfuel ts st
    | .single t =>
      match getTypedPropertiesFromType g dtContext rfuel st t with
      | none => none
      | some (typed, st1) =>
        some (typed.map (fun p => p.label) ++ getRequiredPropertiesFromType t, st1)
    | .missing => some ([], st)
  match collected with
  | none => none
  | some (properties, st1) =>
    some (unexpectedLoop (uniqFirst properties) props, st1)

/-- `getStringPatternIssues`: the static pattern rule and length range
for the key, each contributing at most one issue. -/
def getStringPatternIssues (sp : Json.Span) (value : String)
    (jsonKey : String) : List Issue :=
  let part1 :=
    match getStringValuePattern jsonKey with
    | some rule =>
      if ¬patternTest rule value then
        let ruleMessage :=
          if jsonKey = "@id" ∨ jsonKey = "schema" then
            "The id should be a simple URN which is a multipart string sparated by colons. It must start with the string \"urn\". Each segment may only contain the characters a-z, A-Z, 0-9, and underscore."
          else if jsonKey = "name" then
            "The name should only contain the characters a-z, A-Z, 0-9, and underscore."
          else
            match rule with
            | .urnRule => "/^urn:([a-zA-Z0-9_]+:)+[a-zA-Z0-9_]+:\\d+$/"
            | .nameRule => "/^[a-zA-Z0-9_]+$/"
        [⟨sp.startIndex, sp.endIndex,
          "Invalid value. Valid value must match this: " ++ ruleMessage⟩]
      else []
    | none => []
  let part2 :=
    match getStringValueLengthRange jsonKey with
    | some (lo, hi) =>
      if value.length < lo ∨ value.length > hi then
        [⟨sp.startIndex, sp.endIndex,
          "Invalid value. Valid value must has length between "
          ++ toString lo ++ " and " ++ toString hi ++ "."⟩]
      else []
    | none => []
  part1 ++ part2

/-- `getStringIssues`: `@context` and `@id` carry fixed
(case-insensitive) value sets, other keys resolve their legal values
through `getStringValuesFromShortName`; a set containing the
string-primitive marker switches to pattern/length checking. -/
def getStringIssues (g : DigitalTwinMetaModelGraph)
    (dtContext : DigitalTwinMetaModelContext) (rfuel : Nat) (st : PCache)
    (document : TextDocument) (sp : Json.Span) (value : String)
    (isInlineInterface : Bool) (jsonKey : Option String) :
    Option (List Issue × PCache) :=
  match jsonKey with
  | none => some ([], st)
  | some key =>
    let fixed : Option (List String × Bool) :=
      if key = "@context" then
        let contextUri :=
          if isInlineInterface then ContextUris.interface
          else if jsEndsWith document.fsPath ".interface.json" then
            ContextUris.interface
          else ContextUris.capabilityModel
        some ([contextUri, ContextUris.iotModel], true)
      else if key = "@id" then some (["XMLSchema#string"], true)
      else none
    let resolved : Option ((List String × Bool) × PCache) :=
      match fixed with
      | some vs => some (vs, st)
      | none =>
        match getStringValuesFromShortName g dtContext rfuel st key with
        | none => none
        | some (values, st1) => some ((values, false), st1)
    match resolved with
    | none => none
    | some ((values, caseInsensitive), st1) =>
      if values.isEmpty then some ([], st1)
      else if values.contains "XMLSchema#string" then
        some (getStringPatternIssues sp value key, st1)
      else if ¬isValidStringValue value values caseInsensitive then
        some ([⟨sp.startIndex, sp.endIndex,
          "Invalid value. Valid values:\n" ++ String.intercalate "\n" values⟩], st1)
      else some ([], st1)

/-- The sibling-name scan of `getArrayElementNameIssues`: object
elements with a string `name` property must carry names unseen among
the earlier siblings; a repeated name yields one issue at the name
value's span. -/
def arrayNameScan : List Json.Value → List String → List Issue
  | [], _ => []
  | el :: rest, names =>
    match el with
    | .obj _ props =>
      match Json.lookupProp "name" props with
      | some (.str sp name) =>
        if names.contains name then
          ⟨sp.startIndex, sp.endIndex,
            name ++ " has already been assigned to another item."⟩
            :: arrayNameScan rest names
        else arrayNameScan rest (names ++ [name])
      | _ => arrayNameScan rest names
    | _ => arrayNameScan rest names

/-- `getArrayElementNameIssues` (the `isInlineInterface` parameter is
unused in the source as well). -/
def getArrayElementNameIssues (jsonValue : Json.Value)
    (isInlineInterface : Bool) : List Issue :=
  match jsonValue with
  | .arr _ els => arrayNameScan els []
  | _ => []

end DigitalTwinDiagnostic

namespace DigitalTwinDiagnostic

open DigitalTwinMetaModelParser

mutual

/-- `getJsonValueIssues`: dispatch on the JSON value kind — objects and
arrays recurse, strings run the string checks, every other kind yields
no issue.  `dfuel` bounds the document recursion depth (the source
recursion is structural on the document, so any `dfuel` larger than the
document depth is enough); `rfuel` is handed to every resolver call. -/
def getJsonValueIssues (g : DigitalTwinMetaModelGraph)
    (dtContext : DigitalTwinMetaModelContext) (rfuel : Nat) :
    Nat → PCache → TextDocument → Json.Value → Bool → Option String →
    Option (List Issue × PCache)
  | 0, _, _, _, _, _ => none
  | dfuel + 1, st, document, jsonValue, isInlineInterface, jsonKey =>
    match jsonValue with
    | .obj sp props =>
      getObjectIssues g dtContext rfuel dfuel st document sp props
        isInlineInterface jsonKey
    | .arr _ els =>
      match getArrayIssues g dtContext rfuel dfuel st document els
          isInlineInterface jsonKey with
      | none => none
      | some (arrayIssues, st1) =>
        some (arrayIssues ++ getArrayElementNameIssues jsonValue isInlineInterface,
          st1)
    | .str sp s =>
      getStringIssues g dtContext rfuel st document sp s isInlineInterface jsonKey
    | _ => some ([], st)
termination_by dfuel st document jsonValue isInline jsonKey => (dfuel, 0, 0)

/-- `getArrayIssues`: recurse into every element under the same
contextual key. -/
def getArrayIssues (g : DigitalTwinMetaModelGraph)
    (dtContext : DigitalTwinMetaModelContext) (rfuel : Nat) (dfuel : Nat)
    (st : PCache) (document : TextDocument) (els : List Json.Value)
    (isInlineInterface : Bool) (jsonKey : Option String) :
    Option (List Issue × PCache) :=
  match els with
  | [] => some ([], st)
  | el :: rest =>
    match getJsonValueIssues g dtContext rfuel dfuel st document el
        isInlineInterface jsonKey with
    | none => none
    | some (elementIssues, st1) =>
      match getArrayIssues g dtContext rfuel dfuel st1 document rest
          isInlineInterface jsonKey with
      | none => none
      | some (restIssues, st2) => some (elementIssues ++ restIssues, st2)
termination_by (dfuel, 1, els.length + 1)

/-- The child loop of `getObjectIssues`: recurse into every property
value, renaming the contextual key to the inline-interface sentinel for
a `schema` property under `implements`. -/
def objChildrenLoop (g : DigitalTwinMetaModelGraph)
    (dtContext : DigitalTwinMetaModelContext) (rfuel : Nat) (dfuel : Nat)
    (document : TextDocument) (props : List (Json.PropName × Json.Value))
    (isInlineInterface : Bool) (jsonKey : Option String) :
    List String → PCache → Option (List Issue × PCache)
  | [], st => some ([], st)
  | propertyName :: rest, st =>
    let (childKey, childInline) :=
      if isInlineInterface then (propertyName, true)
      else if jsonKey = some "implements" ∧ propertyName = "schema" then
        (DTDLKeywords.inlineInterfaceKeyName, true)
      else (propertyName, false)
    match Json.lookupProp propertyName props with
    | none =>
      objChildrenLoop g dtContext rfuel dfuel document props isInlineInterface
        jsonKey rest st
    | some childValue =>
      match getJsonValueIssues g dtContext rfuel dfuel st document childValue
          childInline (some childKey) with
      | none => none
      | some (childIssues, st1) =>
        match objChildrenLoop g dtContext rfuel dfuel document props
            isInlineInterface jsonKey rest st1 with
        | none => none
        | some (restIssues, st2) => some (childIssues ++ restIssues, st2)
termination_by names st => (dfuel, 2, names.length + 1)

/-- `getObjectIssues`: invalid-`@type` issues short-circuit; a missing
type yields one issue and stops the descent; otherwise
missing-required, unexpected-property and child issues accumulate in
source order. -/
def getObjectIssues (g : DigitalTwinMetaModelGraph)
    (dtContext : DigitalTwinMetaModelContext) (rfuel : Nat) (dfuel : Nat)
    (st : PCache) (document : TextDocument) (sp : Json.Span)
    (props : List (Json.PropName × Json.Value)) (isInlineInterface : Bool)
    (jsonKey : Option String) : Option (List Issue × PCache) :=
  match getInvalidTypeIssues g dtContext rfuel st document sp props jsonKey with
  | none => none
  | some (some typeIssues, st1) => some (typeIssues, st1)
  | some (none, st1) =>
    match getType g dtContext rfuel st1 document props jsonKey with
    | none => none
    | some (.missing, st2) =>
      some ([⟨sp.startIndex, sp.endIndex, "@type is missing"⟩], st2)
    | some (tr, st2) =>
      let missingIssues :=
        match tr with
        | .single t => getMissingRequiredPropertiesIssues sp props t isInlineInterface
        | .multiple ts =>
          (ts.map (fun t =>
            getMissingRequiredPropertiesIssues sp props t isInlineInterface)).flatten
        | .missing => []
      match getUnexpectedPropertiesIssues g dtContext rfuel st2 props tr with
      | none => none
      | some (unexpectedIssues, st3) =>
        match objChildrenLoop g dtContext rfuel dfuel document props
            isInlineInterface jsonKey (props.map (fun p => p.1.name)) st3 with
        | none => none
        | some (childIssues, st4) =>
          some (missingIssues ++ unexpectedIssues ++ childIssues, st4)
termination_by (dfuel, 3, 0)

end

end DigitalTwinDiagnostic

namespace DigitalTwinDiagnostic

open DigitalTwinMetaModelParser

/-- The `switch` of `getTypeIssues` mapping primitive type names to
JSON value kinds. -/
def valueKindOfTypeName : String → Option Json.ValueKind
  | "string" => some .StringValue
  | "int" => some .NumberValue
  | "long" => some .NumberValue
  | "float" => some .NumberValue
  | "double" => some .NumberValue
  | "boolean" => some .BooleanValue
  | _ => none

mutual

/-- `getTypeIssues` (the type-compatibility pass): re-derive the
expected raw value types for the contextual key, recurse through arrays
and objects, and flag non-integral numeric literals whose expected
types exclude `float` and `double` (the kind-mismatch check itself is
disabled in the source). -/
def getTypeIssues (g : DigitalTwinMetaModelGraph)
    (dtContext : DigitalTwinMetaModelContext) (rfuel : Nat) :
    Nat → PCache → TextDocument → Json.Value → Option String → Bool →
    Option (List Issue × PCache)
  | 0, _, _, _, _, _ => none
  | dfuel + 1, st, document, jsonValue, jsonKey, isArrayElement =>
    let rawStep : Option (List String × List Json.ValueKind × PCache) :=
      match jsonKey with
      | none => some (["object"], [.ObjectValue], st)
      | some key =>
        if ¬isArrayElement ∧ isArrayFromShortName key then
          some (["array"], [.ArrayValue], st)
        else
          match getIdFromShortName dtContext key with
          | none => none
          | some id =>
            if id.isEmpty then none
            else
              match getValueTypesFromId g dtContext rfuel st id with
              | none => none
              | some (rawValueTypes, st1) =>
                let kinds := rawValueTypes.filterMap valueKindOfTypeName
                let validTypes :=
                  if kinds.isEmpty then [Json.ValueKind.ObjectValue, .StringValue]
                  else if isInternationalizationFromId dtContext id then
                    kinds ++ [Json.ValueKind.ObjectValue]
                  else kinds
                some (rawValueTypes, validTypes, st1)
    match rawStep with
    | none =>
      -- `if (!id) return [];` — an unresolvable key ends the check
      -- without an issue.  The surrounding `match` cannot distinguish
      -- this from fuel exhaustion, so the unresolvable-key exit is
      -- reproduced here.
      match jsonKey with
      | none => none
      | some key =>
        if ¬isArrayElement ∧ isArrayFromShortName key then none
        else
          match getIdFromShortName dtContext key with
          | none => some ([], st)
          | some id => if id.isEmpty then some ([], st) else none
    | some (rawValueTypes, _, st1) =>
      match jsonValue with
      | .arr _ els =>
        typeIssuesArrayLoop g dtContext rfuel dfuel document jsonKey els st1
      | .obj _ props =>
        typeIssuesObjectLoop g dtContext rfuel dfuel document props
          (props.map (fun p => p.1.name)) st1
      | .num sp q =>
        if ¬rawValueTypes.contains "float" ∧ ¬rawValueTypes.contains "double" then
          if (q.floor : Rat) ≠ q then
            some ([⟨sp.startIndex, sp.endIndex,
              "Invalid value. Valid value is "
              ++ String.intercalate ", " rawValueTypes ++ "."⟩], st1)
          else some ([], st1)
        else some ([], st1)
      | _ => some ([], st1)
termination_by dfuel st document jsonValue jsonKey isArrayElement => (dfuel, 0, 0)

/-- The array-element loop of `getTypeIssues` (elements keep the same
key and are marked as array elements). -/
def typeIssuesArrayLoop (g : DigitalTwinMetaModelGraph)
    (dtContext : DigitalTwinMetaModelContext) (rfuel : Nat) (dfuel : Nat)
    (document : TextDocument) (jsonKey : Option String) :
    List Json.Value → PCache → Option (List Issue × PCache)
  | [], st => some ([], st)
  | el :: rest, st =>
    match getTypeIssues g dtContext rfuel dfuel st document el jsonKey true with
    | none => none
    | some (elementIssues, st1) =>
      match typeIssuesArrayLoop g dtContext rfuel dfuel document jsonKey rest st1 with
      | none => none
      | some (restIssues, st2) => some (elementIssues ++ restIssues, st2)
termination_by els st => (dfuel, 1, els.length + 1)

/-- The object-property loop of `getTypeIssues` (children are keyed by
their property name). -/
def typeIssuesObjectLoop (g : DigitalTwinMetaModelGraph)
    (dtContext : DigitalTwinMetaModelContext) (rfuel : Nat) (dfuel : Nat)
    (document : TextDocument) (props : List (Json.PropName × Json.Value)) :
    List String → PCache → Option (List Issue × PCache)
  | [], st => some ([], st)
  | key :: rest, st =>
    match Json.lookupProp key props with
    | none => typeIssuesObjectLoop g dtContext rfuel dfuel document props rest st
    | some value =>
      match getTypeIssues g dtContext rfuel dfuel st document value (some key) false with
      | none => none
      | some (childIssues, st1) =>
        match typeIssuesObjectLoop g dtContext rfuel dfuel document props rest st1 with
        | none => none
        | some (restIssues, st2) => some (childIssues ++ restIssues, st2)
termination_by keys st => (dfuel, 1, keys.length + 1)

end

/-- `getIssues`: parse the document text (zero issues on malformed
input), then union the shape pass and the type-compatibility pass. -/
def getIssues (g : DigitalTwinMetaModelGraph)
    (dtContext : DigitalTwinMetaModelContext) (rfuel dfuel : Nat) (st : PCache)
    (document : TextDocument) : Option (List Issue × PCache) :=
  match Json.parse document.text with
  | none => some ([], st)
  | some value =>
    match getJsonValueIssues g dtContext rfuel dfuel st document value false none with
    | none => none
    | some (issues1, st1) =>
      match getTypeIssues g dtContext rfuel dfuel st1 document value none false with
      | none => none
      | some (issues2, st2) => some (issues1 ++ issues2, st2)

end DigitalTwinDiagnostic

namespace DigitalTwinMetaModelParser

/-- Every value stored in the `PropertiesFromId` cache is sorted and
duplicate-free. -/
def PropsCacheSorted (st : PCache) : Prop :=
  ∀ id v, st.PropertiesFromId.lookup id = some v →
    List.Sorted (· ≤ ·) v ∧ v.Nodup

/-- Every value stored in the `TypesFromId` cache is sorted and
duplicate-free. -/
def TypesCacheSorted (st : PCache) : Prop :=
  ∀ id v, st.TypesFromId.lookup id = some v →
    List.Sorted (· ≤ ·) v ∧ v.Nodup

end DigitalTwinMetaModelParser

namespace DigitalTwinMetaModelParser

mutual

/-- Cache-free reference semantics of `getPropertiesFromId`: the same
traversal with the memoization stripped.  The agreement theorem below
shows the memoized function computes exactly these values, which makes
the subclass-inclusion properties provable against a single reference. -/
def purePropertiesFromId (g : DigitalTwinMetaModelGraph)
    (dtContext : DigitalTwinMetaModelContext) : Nat → String → Option (List String)
  | 0, _ => none
  | fuel + 1, id =>
    if isInternationalizationFromId dtContext id then
      some (dedupSort LANGUAGE_CODES)
    else
      match purePropsGo g dtContext fuel id g.Edges with
      | none => none
      | some props => some (dedupSort props)
termination_by fuel id => (fuel, 0)

/-- Cache-free edge loop of `purePropertiesFromId`. -/
def purePropsGo (g : DigitalTwinMetaModelGraph)
    (dtContext : DigitalTwinMetaModelContext) (fuel : Nat) (id : String) :
    List GraphEdge → Option (List String)
  | [] => some []
  | edge :: rest =>
    if edge.TargetNode.Id = id ∧ edge.Label = LABEL.DOMAIN then
      match purePropsGo g dtContext fuel id rest with
      | none => none
      | some props => some (getPropertyNameFromId dtContext edge.SourceNode.Id :: props)
    else if edge.SourceNode.Id = id ∧ edge.Label = LABEL.SUBCLASS then
      match purePropertiesFromId g dtContext fuel edge.TargetNode.Id with
      | none => none
      | some sub =>
        match purePropsGo g dtContext fuel id rest with
        | none => none
        | some props => some (sub ++ props)
    else purePropsGo g dtContext fuel id rest
termination_by edges => (fuel, edges.length + 1)

end

/-- A properties cache is truthful when every entry agrees with the pure
reference at some fuel. -/
def PropsCacheOK (g : DigitalTwinMetaModelGraph)
    (dtContext : DigitalTwinMetaModelContext) (st : PCache) : Prop :=
  ∀ id v, st.PropertiesFromId.lookup id = some v →
    ∃ f, purePropertiesFromId g dtContext f id = some v

/-- A ranking that decreases across the `subClassOf` edges followed by
`getPropertiesFromId` (source to target). -/
def SubclassRank (g : DigitalTwinMetaModelGraph) (ν : String → Nat) : Prop :=
  ∀ e ∈ g.Edges, e.Label = LABEL.SUBCLASS →
    ν e.TargetNode.Id < ν e.SourceNode.Id

/-- A ranking that decreases across the edges followed by
`getTypesFromId` and `getStringValuesFromId`: `range` forward,
`subClassOf` and `type` backward. -/
def TraversalRank (g : DigitalTwinMetaModelGraph) (μ : String → Nat) : Prop :=
  (∀ e ∈ g.Edges, e.Label = LABEL.RANGE →
    μ e.TargetNode.Id < μ e.SourceNode.Id) ∧
  (∀ e ∈ g.Edges, e.Label = LABEL.SUBCLASS →
    μ e.SourceNode.Id < μ e.TargetNode.Id) ∧
  (∀ e ∈ g.Edges, e.Label = LABEL.TYPE →
    μ e.SourceNode.Id < μ e.TargetNode.Id)

end DigitalTwinMetaModelParser

open DigitalTwinMetaModelParser DigitalTwinDiagnostic

/-- An empty context over the vocabulary `v/`. -/
def smallCtx : DigitalTwinMetaModelContext := { vocab := "v/", entries := [] }

/-- The empty metamodel graph. -/
def noEdgeGraph : DigitalTwinMetaModelGraph := { Nodes := [], Edges := [] }

/-- Graph for the `getStringValuesFromId` order counterexample: `X` has
`range` edges to `b` and then to `a`. -/
def svOrderGraph : DigitalTwinMetaModelGraph :=
  { Nodes := [{ Id := "X" }, { Id := "b" }, { Id := "a" }],
    Edges := [ { SourceNode := { Id := "X" }, TargetNode := { Id := "b" },
                 Label := LABEL.RANGE },
               { SourceNode := { Id := "X" }, TargetNode := { Id := "a" },
                 Label := LABEL.RANGE } ] }

/-- The cache produced by the counterexample run. -/
def svOrderCache : PCache :=
  ((emptyCache.insertStringValues "b" ["b"]).insertStringValues "a"
    ["a"]).insertStringValues "X" ["b", "a"]

/-- Context flagging `v/I` as an internationalization container. -/
def intlCtx : DigitalTwinMetaModelContext :=
  { vocab := "v/", entries := [("displayName", .obj "I" (some "@language"))] }

/-- The typed-property list of the internationalization branch. -/
def intlTypedProps : List TypedProperty :=
  LANGUAGE_CODES.map (fun code => { label := code, required := false, type := "string" })

/-- The type names of the static required-properties table. -/
def knownRequiredTypeNames : List String :=
  ["Interface", "Telemetry", "Property", "Command", "Array", "Enum",
   "EnumValue", "Map", "MapKey", "MapValue", "Object", "SchemaField",
   "Boolean", "Bytes", "Date", "DateTime", "Duration", "Float", "Integer",
   "Long", "String", "Time", "CapabilityModel", "InterfaceInstance"]

def c7obj1 : Json.Value :=
  .obj ⟨0, 14⟩ [(⟨"name", ⟨1, 6⟩⟩, .str ⟨9, 14⟩ "temp")]

def c7obj2 : Json.Value :=
  .obj ⟨17, 31⟩ [(⟨"name", ⟨18, 23⟩⟩, .str ⟨26, 31⟩ "temp")]

/-- Context and graphs for the C8 witness. -/
def c8ctx : DigitalTwinMetaModelContext :=
  { vocab := "v/", entries := [("temperature", .str "temperature")] }

def c8intGraph : DigitalTwinMetaModelGraph :=
  { Nodes := [{ Id := "v/temperature" },
      { Id := "http://www.w3.org/2001/XMLSchema#int" }],
    Edges := [ { SourceNode := { Id := "v/temperature" },
                 TargetNode := { Id := "http://www.w3.org/2001/XMLSchema#int" },
                 Label := LABEL.RANGE } ] }

def c8floatGraph : DigitalTwinMetaModelGraph :=
  { Nodes := [{ Id := "v/temperature" },
      { Id := "http://www.w3.org/2001/XMLSchema#float" }],
    Edges := [ { SourceNode := { Id := "v/temperature" },
                 TargetNode := { Id := "http://www.w3.org/2001/XMLSchema#float" },
                 Label := LABEL.RANGE } ] }

def c8doc : TextDocument := { text := "", fsPath := "a.interface.json" }

def c8intCache : PCache :=
  ((emptyCache.insertStringValues "http://www.w3.org/2001/XMLSchema#int"
      ["XMLSchema#int"]).insertStringValues "v/temperature"
      ["XMLSchema#int"]).insertValueTypes "v/temperature" ["int"]

def c8floatCache : PCache :=
  ((emptyCache.insertStringValues "http://www.w3.org/2001/XMLSchema#float"
      ["XMLSchema#float"]).insertStringValues "v/temperature"
      ["XMLSchema#float"]).insertValueTypes "v/temperature" ["float"]

/-- Context resolving `schema2` to the special-cased id. -/
def c10ctx : DigitalTwinMetaModelContext :=
  { vocab := "http://azureiot.com/v1/classes/",
    entries := [("schema2", .str "InterfaceInstance/schema")] }

/-- Context flagging `v/A` as internationalization container (for the C3
counterexample), mapping the other names normally. -/
def c3ctx : DigitalTwinMetaModelContext :=
  { vocab := "v/",
    entries := [("a", .obj "A" (some "@language")), ("b", .str "B"),
      ("c", .str "C"), ("p", .str "p")] }

/-- Counterexample graph: `A subClassOf B subClassOf C`, and `p` has
`domain` `B`. -/
def c3g : DigitalTwinMetaModelGraph :=
  { Nodes := [{ Id := "v/A" }, { Id := "v/B" }, { Id := "v/C" }, { Id := "v/p" }],
    Edges := [ { SourceNode := { Id := "v/A" }, TargetNode := { Id := "v/B" },
                 Label := LABEL.SUBCLASS },
               { SourceNode := { Id := "v/B" }, TargetNode := { Id := "v/C" },
                 Label := LABEL.SUBCLASS },
               { SourceNode := { Id := "v/p" }, TargetNode := { Id := "v/B" },
                 Label := LABEL.DOMAIN } ] }

/-- Witness graph for C3: `A subClassOf B subClassOf C`, `p` has
`domain` `C`; no internationalization flags. -/
def c3wCtx : DigitalTwinMetaModelContext :=
  { vocab := "v/", entries := [("p", .str "p")] }

def c3wG : DigitalTwinMetaModelGraph :=
  { Nodes := [{ Id := "v/A" }, { Id := "v/B" }, { Id := "v/C" }, { Id := "v/p" }],
    Edges := [ { SourceNode := { Id := "v/A" }, TargetNode := { Id := "v/B" },
                 Label := LABEL.SUBCLASS },
               { SourceNode := { Id := "v/B" }, TargetNode := { Id := "v/C" },
                 Label := LABEL.SUBCLASS },
               { SourceNode := { Id := "v/p" }, TargetNode := { Id := "v/C" },
                 Label := LABEL.DOMAIN } ] }

/-- A vocabulary context with no entries, used for the cyclic
counterexample: no id is internationalization-flagged. -/
def cycCtx : DigitalTwinMetaModelContext := ⟨"v/", []⟩

/-- `v/A subClassOf v/B`. -/
def eCycAB : GraphEdge := ⟨⟨"v/A", none⟩, ⟨"v/B", none⟩, LABEL.SUBCLASS⟩

/-- `v/B subClassOf v/A`. -/
def eCycBA : GraphEdge := ⟨⟨"v/B", none⟩, ⟨"v/A", none⟩, LABEL.SUBCLASS⟩

/-- A graph whose `subClassOf` relation is cyclic: `v/A` and `v/B` are
subclasses of each other. -/
def cycGraph : DigitalTwinMetaModelGraph :=
  ⟨[⟨"v/A", none⟩, ⟨"v/B", none⟩], [eCycAB, eCycBA]⟩

/-- An edgeless graph: every ranking function is a valid rank for it. -/
def c5wGraph : DigitalTwinMetaModelGraph := ⟨[], []⟩

-- --------------------------------------------------------------------

-- Theorems.

-- --------------------------------------------------------------------

theorem mem_uniqFirstAux {x : String} :
    ∀ {xs seen : List String}, x ∈ uniqFirstAux seen xs ↔ x ∈ xs ∧ x ∉ seen := by
  intro xs
  induction xs with
  | nil => simp [uniqFirstAux]
  | cons y ys ih =>
    intro seen
    by_cases hy : seen.contains y
    · rw [uniqFirstAux, if_pos hy]
      rw [ih]
      simp only [List.mem_cons]
      constructor
      · rintro ⟨h1, h2⟩
        exact ⟨Or.inr h1, h2⟩
      · rintro ⟨(rfl | h1), h2⟩
        · exact absurd (by simpa using hy) h2
        · exact ⟨h1, h2⟩
    · rw [uniqFirstAux, if_neg hy]
      simp only [List.mem_cons, ih]
      constructor
      · rintro (rfl | ⟨h1, h2⟩)
        · exact ⟨Or.inl rfl, by simpa using hy⟩
        · exact ⟨Or.inr h1, fun hs => h2 (Or.inr hs)⟩
      · rintro ⟨(rfl | h1), h2⟩
        · exact Or.inl rfl
        · by_cases hxy : x = y
          · exact Or.inl hxy
          · exact Or.inr ⟨h1, by simp [hxy, h2]⟩

theorem mem_uniqFirst {x : String} {xs : List String} :
    x ∈ uniqFirst xs ↔ x ∈ xs := by
  unfold uniqFirst
  rw [mem_uniqFirstAux]
  simp

theorem nodup_uniqFirstAux :
    ∀ (xs seen : List String), (uniqFirstAux seen xs).Nodup := by
  intro xs
  induction xs with
  | nil => simp [uniqFirstAux]
  | cons y ys ih =>
    intro seen
    by_cases hy : seen.contains y
    · rw [uniqFirstAux, if_pos hy]
      exact ih seen
    · rw [uniqFirstAux, if_neg hy]
      refine List.nodup_cons.mpr ⟨fun hmem => ?_, ih (y :: seen)⟩
      exact (mem_uniqFirstAux.mp hmem).2 (List.mem_cons_self y seen)

theorem nodup_uniqFirst (xs : List String) : (uniqFirst xs).Nodup :=
  nodup_uniqFirstAux xs []

theorem sorted_dedupSort (xs : List String) :
    List.Sorted (· ≤ ·) (dedupSort xs) :=
  List.sorted_insertionSort _ _

theorem nodup_dedupSort (xs : List String) : (dedupSort xs).Nodup :=
  ((List.perm_insertionSort _ _).nodup_iff).mpr (nodup_uniqFirst xs)

theorem mem_dedupSort {x : String} {xs : List String} :
    x ∈ dedupSort xs ↔ x ∈ xs := by
  unfold dedupSort sortStrings
  rw [(List.perm_insertionSort _ _).mem_iff, mem_uniqFirst]

namespace DigitalTwinMetaModelParser

theorem lookup_insert_self {α : Type} (l : List (String × α)) (id : String) (v : α) :
    ((id, v) :: l).lookup id = some v := by
  simp [List.lookup]

/-- After a successful `getPropertiesFromId` call, the returned list is
the cache entry of `id` in the returned cache. -/
theorem getPropertiesFromId_caches {g : DigitalTwinMetaModelGraph}
    {dtContext : DigitalTwinMetaModelContext} {f : Nat} {st : PCache}
    {id : String} {v : List String} {st' : PCache}
    (h : getPropertiesFromId g dtContext f st id = some (v, st')) :
    st'.PropertiesFromId.lookup id = some v := by
  match f with
  | 0 => simp [getPropertiesFromId] at h
  | f + 1 =>
    rw [getPropertiesFromId] at h
    cases hc : st.PropertiesFromId.lookup id with
    | some cached =>
      rw [hc] at h
      simp only [Option.some.injEq, Prod.mk.injEq] at h
      obtain ⟨rfl, rfl⟩ := h
      exact hc
    | none =>
      rw [hc] at h
      by_cases hint : isInternationalizationFromId dtContext id = true
      · rw [if_pos hint] at h
        simp only [Option.some.injEq, Prod.mk.injEq] at h
        obtain ⟨rfl, rfl⟩ := h
        exact lookup_insert_self _ _ _
      · rw [if_neg hint] at h
        cases hgo : goProperties g dtContext f id g.Edges st with
        | none => rw [hgo] at h; cases h
        | some res =>
          rw [hgo] at h
          obtain ⟨props, st1⟩ := res
          simp only [Option.some.injEq, Prod.mk.injEq] at h
          obtain ⟨rfl, rfl⟩ := h
          exact lookup_insert_self _ _ _

theorem getTypesFromId_caches {g : DigitalTwinMetaModelGraph}
    {dtContext : DigitalTwinMetaModelContext} {f : Nat} {st : PCache}
    {id : String} {v : List String} {st' : PCache}
    (h : getTypesFromId g dtContext f st id = some (v, st')) :
    st'.TypesFromId.lookup id = some v := by
  match f with
  | 0 => simp [getTypesFromId] at h
  | f + 1 =>
    rw [getTypesFromId] at h
    cases hc : st.TypesFromId.lookup id with
    | some cached =>
      rw [hc] at h
      simp only [Option.some.injEq, Prod.mk.injEq] at h
      obtain ⟨rfl, rfl⟩ := h
      exact hc
    | none =>
      rw [hc] at h
      cases hgo : goTypes g dtContext f id g.Edges st with
      | none => rw [hgo] at h; cases h
      | some res =>
        rw [hgo] at h
        obtain ⟨types0, st1⟩ := res
        simp only [Option.some.injEq, Prod.mk.injEq] at h
        obtain ⟨rfl, rfl⟩ := h
        exact lookup_insert_self _ _ _

theorem getStringValuesFromId_caches {g : DigitalTwinMetaModelGraph}
    {dtContext : DigitalTwinMetaModelContext} {f : Nat} {st : PCache}
    {id : String} {v : List String} {st' : PCache}
    (h : getStringValuesFromId g dtContext f st id = some (v, st')) :
    st'.StringValuesFromId.lookup id = some v := by
  match f with
  | 0 => simp [getStringValuesFromId] at h
  | f + 1 =>
    rw [getStringValuesFromId] at h
    cases hc : st.StringValuesFromId.lookup id with
    | some cached =>
      rw [hc] at h
      simp only [Option.some.injEq, Prod.mk.injEq] at h
      obtain ⟨rfl, rfl⟩ := h
      exact hc
    | none =>
      rw [hc] at h
      cases hgo : goStringValues g dtContext f id g.Edges st with
      | none => rw [hgo] at h; cases h
      | some res =>
        rw [hgo] at h
        obtain ⟨values, hasProperty, st1⟩ := res
        dsimp only at h
        by_cases hv : values.isEmpty = true
        · rw [if_pos hv] at h
          by_cases hp : hasProperty = true
          · rw [if_pos hp] at h
            simp only [Option.some.injEq, Prod.mk.injEq] at h
            obtain ⟨rfl, rfl⟩ := h
            exact lookup_insert_self _ _ _
          · rw [if_neg hp] at h
            simp only [Option.some.injEq, Prod.mk.injEq] at h
            obtain ⟨rfl, rfl⟩ := h
            exact lookup_insert_self _ _ _
        · rw [if_neg hv] at h
          simp only [Option.some.injEq, Prod.mk.injEq] at h
          obtain ⟨rfl, rfl⟩ := h
          exact lookup_insert_self _ _ _

theorem getTypedPropertiesFromId_caches {g : DigitalTwinMetaModelGraph}
    {dtContext : DigitalTwinMetaModelContext} {f : Nat} {st : PCache}
    {id : String} {v : List TypedProperty} {st' : PCache}
    (h : getTypedPropertiesFromId g dtContext f st id = some (v, st')) :
    st'.TypedPropertiesFromId.lookup id = some v := by
  rw [getTypedPropertiesFromId] at h
  cases hc : st.TypedPropertiesFromId.lookup id with
  | some cached =>
    rw [hc] at h
    simp only [Option.some.injEq, Prod.mk.injEq] at h
    obtain ⟨rfl, rfl⟩ := h
    exact hc
  | none =>
    rw [hc] at h
    by_cases hint : isInternationalizationFromId dtContext id = true
    · rw [if_pos hint] at h
      simp only [Option.some.injEq, Prod.mk.injEq] at h
      obtain ⟨rfl, rfl⟩ := h
      exact lookup_insert_self _ _ _
    · rw [if_neg hint] at h
      cases hp : getPropertiesFromId g dtContext f st id with
      | none => rw [hp] at h; cases h
      | some res =>
        rw [hp] at h
        obtain ⟨keys, st1⟩ := res
        dsimp only at h
        cases hl : typedPropsLoop g dtContext f
            (if (getShortNameFromId dtContext id).isEmpty = true then []
             else getRequiredPropertiesFromType (getShortNameFromId dtContext id))
            keys st1 with
        | none => rw [hl] at h; cases h
        | some res2 =>
          rw [hl] at h
          obtain ⟨results, st2⟩ := res2
          simp only [Option.some.injEq, Prod.mk.injEq] at h
          obtain ⟨rfl, rfl⟩ := h
          exact lookup_insert_self _ _ _

/-- A second `getPropertiesFromId` call right after a successful one
returns the same (cached) array and the same cache. -/
theorem getPropertiesFromId_stable {g : DigitalTwinMetaModelGraph}
    {dtContext : DigitalTwinMetaModelContext} {f : Nat} {st : PCache}
    {id : String} {v : List String} {st' : PCache}
    (h : getPropertiesFromId g dtContext f st id = some (v, st')) (f' : Nat) :
    getPropertiesFromId g dtContext (f' + 1) st' id = some (v, st') := by
  rw [getPropertiesFromId, getPropertiesFromId_caches h]

theorem getTypesFromId_stable {g : DigitalTwinMetaModelGraph}
    {dtContext : DigitalTwinMetaModelContext} {f : Nat} {st : PCache}
    {id : String} {v : List String} {st' : PCache}
    (h : getTypesFromId g dtContext f st id = some (v, st')) (f' : Nat) :
    getTypesFromId g dtContext (f' + 1) st' id = some (v, st') := by
  rw [getTypesFromId, getTypesFromId_caches h]

theorem getStringValuesFromId_stable {g : DigitalTwinMetaModelGraph}
    {dtContext : DigitalTwinMetaModelContext} {f : Nat} {st : PCache}
    {id : String} {v : List String} {st' : PCache}
    (h : getStringValuesFromId g dtContext f st id = some (v, st')) (f' : Nat) :
    getStringValuesFromId g dtContext (f' + 1) st' id = some (v, st') := by
  rw [getStringValuesFromId, getStringValuesFromId_caches h]

theorem getTypedPropertiesFromId_stable {g : DigitalTwinMetaModelGraph}
    {dtContext : DigitalTwinMetaModelContext} {f : Nat} {st : PCache}
    {id : String} {v : List TypedProperty} {st' : PCache}
    (h : getTypedPropertiesFromId g dtContext f st id = some (v, st')) (f' : Nat) :
    getTypedPropertiesFromId g dtContext f' st' id = some (v, st') := by
  rw [getTypedPropertiesFromId, getTypedPropertiesFromId_caches h]

end DigitalTwinMetaModelParser

namespace DigitalTwinMetaModelParser

theorem propsCacheSorted_empty : PropsCacheSorted emptyCache := by
  intro id v h
  simp [emptyCache, List.lookup] at h

theorem typesCacheSorted_empty : TypesCacheSorted emptyCache := by
  intro id v h
  simp [emptyCache, List.lookup] at h

theorem propsCacheSorted_insert {st : PCache} {v : List String}
    (hok : PropsCacheSorted st) (hs : List.Sorted (· ≤ ·) v) (hn : v.Nodup)
    (id : String) : PropsCacheSorted (st.insertProps id v) := by
  intro id' v' h
  simp only [PCache.insertProps, List.lookup] at h
  by_cases he : id' = id
  · subst he
    simp at h
    subst h
    exact ⟨hs, hn⟩
  · have hb : (id' == id) = false := by simpa using he
    rw [hb] at h
    exact hok id' v' h

theorem typesCacheSorted_insert {st : PCache} {v : List String}
    (hok : TypesCacheSorted st) (hs : List.Sorted (· ≤ ·) v) (hn : v.Nodup)
    (id : String) : TypesCacheSorted (st.insertTypes id v) := by
  intro id' v' h
  simp only [PCache.insertTypes, List.lookup] at h
  by_cases he : id' = id
  · subst he
    simp at h
    subst h
    exact ⟨hs, hn⟩
  · have hb : (id' == id) = false := by simpa using he
    rw [hb] at h
    exact hok id' v' h

/-- The other caches never write `PropertiesFromId`, so the sortedness
invariant survives every insertion they perform. -/
theorem propsCacheSorted_insertStringValues {st : PCache} {v : List String}
    (hok : PropsCacheSorted st) (id : String) :
    PropsCacheSorted (st.insertStringValues id v) :=
  fun id' v' h => hok id' v' h

/-- `getPropertiesFromId` preserves the sortedness invariant of the
properties cache and only ever returns sorted, duplicate-free lists. -/
theorem getPropertiesFromId_sorted (g : DigitalTwinMetaModelGraph)
    (dtContext : DigitalTwinMetaModelContext) : ∀ f : Nat,
    ∀ st id v st', PropsCacheSorted st →
      getPropertiesFromId g dtContext f st id = some (v, st') →
      (List.Sorted (· ≤ ·) v ∧ v.Nodup) ∧ PropsCacheSorted st' := by
  intro f
  induction f with
  | zero =>
    intro st id v st' hok h
    simp [getPropertiesFromId] at h
  | succ f ih =>
    have hgo : ∀ es st id ps st', PropsCacheSorted st →
        goProperties g dtContext f id es st = some (ps, st') →
        PropsCacheSorted st' := by
      intro es
      induction es with
      | nil =>
        intro st id ps st' hok h
        rw [goProperties] at h
        simp only [Option.some.injEq, Prod.mk.injEq] at h
        obtain ⟨-, rfl⟩ := h
        exact hok
      | cons e rest ihe =>
        intro st id ps st' hok h
        rw [goProperties] at h
        by_cases h1 : e.TargetNode.Id = id ∧ e.Label = LABEL.DOMAIN
        · rw [if_pos h1] at h
          cases hr : goProperties g dtContext f id rest st with
          | none => rw [hr] at h; cases h
          | some res =>
            obtain ⟨props1, st1⟩ := res
            rw [hr] at h
            simp only [Option.some.injEq, Prod.mk.injEq] at h
            obtain ⟨-, rfl⟩ := h
            exact ihe st id props1 _ hok hr
        · rw [if_neg h1] at h
          by_cases h2 : e.SourceNode.Id = id ∧ e.Label = LABEL.SUBCLASS
          · rw [if_pos h2] at h
            cases hsub : getPropertiesFromId g dtContext f st e.TargetNode.Id with
            | none => rw [hsub] at h; cases h
            | some res =>
              obtain ⟨sub, st1⟩ := res
              rw [hsub] at h
              dsimp only at h
              have hok1 := (ih st e.TargetNode.Id sub st1 hok hsub).2
              cases hr : goProperties g dtContext f id rest st1 with
              | none => rw [hr] at h; cases h
              | some res2 =>
                obtain ⟨props2, st2⟩ := res2
                rw [hr] at h
                simp only [Option.some.injEq, Prod.mk.injEq] at h
                obtain ⟨-, rfl⟩ := h
                exact ihe st1 id props2 _ hok1 hr
          · rw [if_neg h2] at h
            exact ihe st id ps _ hok h
    intro st id v st' hok h
    rw [getPropertiesFromId] at h
    cases hc : st.PropertiesFromId.lookup id with
    | some cached =>
      rw [hc] at h
      simp only [Option.some.injEq, Prod.mk.injEq] at h
      obtain ⟨rfl, rfl⟩ := h
      exact ⟨hok id _ hc, hok⟩
    | none =>
      rw [hc] at h
      by_cases hint : isInternationalizationFromId dtContext id = true
      · rw [if_pos hint] at h
        simp only [Option.some.injEq, Prod.mk.injEq] at h
        obtain ⟨rfl, rfl⟩ := h
        exact ⟨⟨sorted_dedupSort _, nodup_dedupSort _⟩,
          propsCacheSorted_insert hok (sorted_dedupSort _) (nodup_dedupSort _) id⟩
      · rw [if_neg hint] at h
        cases hr : goProperties g dtContext f id g.Edges st with
        | none => rw [hr] at h; cases h
        | some res =>
          obtain ⟨props1, st1⟩ := res
          rw [hr] at h
          simp only [Option.some.injEq, Prod.mk.injEq] at h
          obtain ⟨rfl, rfl⟩ := h
          have hok1 := hgo g.Edges st id props1 st1 hok hr
          exact ⟨⟨sorted_dedupSort _, nodup_dedupSort _⟩,
            propsCacheSorted_insert hok1 (sorted_dedupSort _) (nodup_dedupSort _) id⟩

/-- `getTypesFromId` preserves the sortedness invariant of the types
cache and only ever returns sorted, duplicate-free lists. -/
theorem getTypesFromId_sorted (g : DigitalTwinMetaModelGraph)
    (dtContext : DigitalTwinMetaModelContext) : ∀ f : Nat,
    ∀ st id v st', TypesCacheSorted st →
      getTypesFromId g dtContext f st id = some (v, st') →
      (List.Sorted (· ≤ ·) v ∧ v.Nodup) ∧ TypesCacheSorted st' := by
  intro f
  induction f with
  | zero =>
    intro st id v st' hok h
    simp [getTypesFromId] at h
  | succ f ih =>
    have hstep : ∀ (c : Prop) (inst : Decidable c) st x cs st1,
        TypesCacheSorted st →
        (if c then getTypesFromId g dtContext f st x else some ([], st))
          = some (cs, st1) →
        TypesCacheSorted st1 := by
      intro c inst st x cs st1 hok h
      split at h
      · exact (ih st x cs st1 hok h).2
      · simp only [Option.some.injEq, Prod.mk.injEq] at h
        obtain ⟨-, rfl⟩ := h
        exact hok
    have hgo : ∀ es st id ts st', TypesCacheSorted st →
        goTypes g dtContext f id es st = some (ts, st') →
        TypesCacheSorted st' := by
      intro es
      induction es with
      | nil =>
        intro st id ts st' hok h
        rw [goTypes] at h
        simp only [Option.some.injEq, Prod.mk.injEq] at h
        obtain ⟨-, rfl⟩ := h
        exact hok
      | cons e rest ihe =>
        intro st id ts st' hok h
        rw [goTypes] at h
        dsimp only at h
        cases hs1 : (if e.SourceNode.Id = id ∧ e.Label = LABEL.RANGE then
            getTypesFromId g dtContext f st e.TargetNode.Id
          else some ([], st)) with
        | none => rw [hs1] at h; cases h
        | some r1 =>
          obtain ⟨c1, st1⟩ := r1
          rw [hs1] at h
          dsimp only at h
          have hok1 := hstep _ _ st _ c1 st1 hok hs1
          cases hs2 : (if e.TargetNode.Id = id ∧ e.Label = LABEL.SUBCLASS then
              getTypesFromId g dtContext f st1 e.SourceNode.Id
            else some ([], st1)) with
          | none => rw [hs2] at h; cases h
          | some r2 =>
            obtain ⟨c2, st2⟩ := r2
            rw [hs2] at h
            dsimp only at h
            have hok2 := hstep _ _ st1 _ c2 st2 hok1 hs2
            cases hr : goTypes g dtContext f id rest st2 with
            | none => rw [hr] at h; cases h
            | some r3 =>
              obtain ⟨cs, st3⟩ := r3
              rw [hr] at h
              simp only [Option.some.injEq, Prod.mk.injEq] at h
              obtain ⟨-, rfl⟩ := h
              exact ihe st2 id cs _ hok2 hr
    intro st id v st' hok h
    rw [getTypesFromId] at h
    cases hc : st.TypesFromId.lookup id with
    | some cached =>
      rw [hc] at h
      simp only [Option.some.injEq, Prod.mk.injEq] at h
      obtain ⟨rfl, rfl⟩ := h
      exact ⟨hok id _ hc, hok⟩
    | none =>
      rw [hc] at h
      cases hr : goTypes g dtContext f id g.Edges st with
      | none => rw [hr] at h; cases h
      | some res =>
        obtain ⟨types0, st1⟩ := res
        rw [hr] at h
        dsimp only at h
        simp only [Option.some.injEq, Prod.mk.injEq] at h
        obtain ⟨rfl, rfl⟩ := h
        have hok1 := hgo g.Edges st id types0 st1 hok hr
        exact ⟨⟨sorted_dedupSort _, nodup_dedupSort _⟩,
          typesCacheSorted_insert hok1 (sorted_dedupSort _) (nodup_dedupSort _) id⟩

end DigitalTwinMetaModelParser

namespace DigitalTwinMetaModelParser

/-- Fuel monotonicity of the pure reference (both functions at once). -/
theorem purePropertiesFromId_mono (g : DigitalTwinMetaModelGraph)
    (dtContext : DigitalTwinMetaModelContext) : ∀ f : Nat,
    (∀ id v, purePropertiesFromId g dtContext f id = some v →
      purePropertiesFromId g dtContext (f + 1) id = some v) ∧
    (∀ es id v, purePropsGo g dtContext f id es = some v →
      purePropsGo g dtContext (f + 1) id es = some v) := by
  intro f
  induction f with
  | zero =>
    constructor
    · intro id v h
      simp [purePropertiesFromId] at h
    · intro es id
      induction es with
      | nil =>
        intro v h
        simpa [purePropsGo] using h
      | cons e rest ihe =>
        intro v h
        rw [purePropsGo] at h
        rw [purePropsGo]
        by_cases h1 : e.TargetNode.Id = id ∧ e.Label = LABEL.DOMAIN
        · rw [if_pos h1] at h ⊢
          cases hr : purePropsGo g dtContext 0 id rest with
          | none => rw [hr] at h; cases h
          | some props =>
            rw [hr] at h
            rw [ihe props hr]
            exact h
        · rw [if_neg h1] at h ⊢
          by_cases h2 : e.SourceNode.Id = id ∧ e.Label = LABEL.SUBCLASS
          · rw [if_pos h2] at h ⊢
            cases hsub : purePropertiesFromId g dtContext 0 e.TargetNode.Id with
            | none => rw [hsub] at h; cases h
            | some sub => simp [purePropertiesFromId] at hsub
          · rw [if_neg h2] at h ⊢
            exact ihe v h
  | succ f ih =>
    have hp : ∀ id v, purePropertiesFromId g dtContext (f + 1) id = some v →
        purePropertiesFromId g dtContext (f + 1 + 1) id = some v := by
      intro id v h
      rw [purePropertiesFromId] at h
      rw [purePropertiesFromId]
      by_cases hint : isInternationalizationFromId dtContext id = true
      · rw [if_pos hint] at h ⊢
        exact h
      · rw [if_neg hint] at h ⊢
        cases hr : purePropsGo g dtContext f id g.Edges with
        | none => rw [hr] at h; cases h
        | some props =>
          rw [hr] at h
          rw [ih.2 g.Edges id props hr]
          exact h
    refine ⟨hp, ?_⟩
    intro es id
    induction es with
    | nil =>
      intro v h
      simpa [purePropsGo] using h
    | cons e rest ihe =>
      intro v h
      rw [purePropsGo] at h
      rw [purePropsGo]
      by_cases h1 : e.TargetNode.Id = id ∧ e.Label = LABEL.DOMAIN
      · rw [if_pos h1] at h ⊢
        cases hr : purePropsGo g dtContext (f + 1) id rest with
        | none => rw [hr] at h; cases h
        | some props =>
          rw [hr] at h
          rw [ihe props hr]
          exact h
      · rw [if_neg h1] at h ⊢
        by_cases h2 : e.SourceNode.Id = id ∧ e.Label = LABEL.SUBCLASS
        · rw [if_pos h2] at h ⊢
          cases hsub : purePropertiesFromId g dtContext (f + 1) e.TargetNode.Id with
          | none => rw [hsub] at h; cases h
          | some sub =>
            rw [hsub] at h
            rw [hp e.TargetNode.Id sub hsub]
            cases hr : purePropsGo g dtContext (f + 1) id rest with
            | none => rw [hr] at h; cases h
            | some props =>
              rw [hr] at h
              rw [ihe props hr]
              exact h
        · rw [if_neg h2] at h ⊢
          exact ihe v h

theorem purePropertiesFromId_mono_le {g : DigitalTwinMetaModelGraph}
    {dtContext : DigitalTwinMetaModelContext} {f f' : Nat} (hle : f ≤ f')
    {id : String} {v : List String}
    (h : purePropertiesFromId g dtContext f id = some v) :
    purePropertiesFromId g dtContext f' id = some v := by
  induction hle with
  | refl => exact h
  | step hle ih => exact (purePropertiesFromId_mono g dtContext _).1 id v ih

theorem purePropsGo_mono_le {g : DigitalTwinMetaModelGraph}
    {dtContext : DigitalTwinMetaModelContext} {f f' : Nat} (hle : f ≤ f')
    {es : List GraphEdge} {id : String} {v : List String}
    (h : purePropsGo g dtContext f id es = some v) :
    purePropsGo g dtContext f' id es = some v := by
  induction hle with
  | refl => exact h
  | step hle ih => exact (purePropertiesFromId_mono g dtContext _).2 es id v ih

/-- Determinism of the pure reference across fuels. -/
theorem purePropertiesFromId_det {g : DigitalTwinMetaModelGraph}
    {dtContext : DigitalTwinMetaModelContext} {f1 f2 : Nat} {id : String}
    {v1 v2 : List String}
    (h1 : purePropertiesFromId g dtContext f1 id = some v1)
    (h2 : purePropertiesFromId g dtContext f2 id = some v2) : v1 = v2 := by
  rcases Nat.le_total f1 f2 with hle | hle
  · have h3 := purePropertiesFromId_mono_le hle h1
    rw [h3] at h2
    exact Option.some_inj.mp h2
  · have h3 := purePropertiesFromId_mono_le hle h2
    rw [h3] at h1
    exact (Option.some_inj.mp h1).symm

theorem propsCacheOK_empty (g : DigitalTwinMetaModelGraph)
    (dtContext : DigitalTwinMetaModelContext) :
    PropsCacheOK g dtContext emptyCache := by
  intro id v h
  simp [emptyCache, List.lookup] at h

theorem propsCacheOK_insert {g : DigitalTwinMetaModelGraph}
    {dtContext : DigitalTwinMetaModelContext} {st : PCache} {v : List String}
    (hok : PropsCacheOK g dtContext st)
    {id : String} (hv : ∃ f, purePropertiesFromId g dtContext f id = some v) :
    PropsCacheOK g dtContext (st.insertProps id v) := by
  intro id' v' h
  simp only [PCache.insertProps, List.lookup] at h
  by_cases he : id' = id
  · subst he
    simp at h
    subst h
    exact hv
  · have hb : (id' == id) = false := by simpa using he
    rw [hb] at h
    exact hok id' v' h

/-- The caches other than `PropertiesFromId` do not affect
truthfulness. -/
theorem propsCacheOK_insertStringValues {g : DigitalTwinMetaModelGraph}
    {dtContext : DigitalTwinMetaModelContext} {st : PCache} {v : List String}
    (hok : PropsCacheOK g dtContext st) (id : String) :
    PropsCacheOK g dtContext (st.insertStringValues id v) :=
  fun id' v' h => hok id' v' h

/-- Agreement: on a truthful cache the memoized `getPropertiesFromId`
returns exactly the pure reference value and keeps the cache
truthful. -/
theorem getPropertiesFromId_agrees (g : DigitalTwinMetaModelGraph)
    (dtContext : DigitalTwinMetaModelContext) : ∀ f : Nat,
    ∀ st id v st', PropsCacheOK g dtContext st →
      getPropertiesFromId g dtContext f st id = some (v, st') →
      (∃ f', purePropertiesFromId g dtContext f' id = some v)
        ∧ PropsCacheOK g dtContext st' := by
  intro f
  induction f with
  | zero =>
    intro st id v st' hok h
    simp [getPropertiesFromId] at h
  | succ f ih =>
    have hgo : ∀ es st id ps st', PropsCacheOK g dtContext st →
        goProperties g dtContext f id es st = some (ps, st') →
        (∃ f', purePropsGo g dtContext f' id es = some ps)
          ∧ PropsCacheOK g dtContext st' := by
      intro es
      induction es with
      | nil =>
        intro st id ps st' hok h
        rw [goProperties] at h
        simp only [Option.some.injEq, Prod.mk.injEq] at h
        obtain ⟨rfl, rfl⟩ := h
        exact ⟨⟨0, by rw [purePropsGo]⟩, hok⟩
      | cons e rest ihe =>
        intro st id ps st' hok h
        rw [goProperties] at h
        by_cases h1 : e.TargetNode.Id = id ∧ e.Label = LABEL.DOMAIN
        · rw [if_pos h1] at h
          cases hr : goProperties g dtContext f id rest st with
          | none => rw [hr] at h; cases h
          | some res =>
            obtain ⟨props1, st1⟩ := res
            rw [hr] at h
            simp only [Option.some.injEq, Prod.mk.injEq] at h
            obtain ⟨rfl, rfl⟩ := h
            obtain ⟨⟨fr, hfr⟩, hok1⟩ := ihe st id props1 _ hok hr
            refine ⟨⟨fr, ?_⟩, hok1⟩
            rw [purePropsGo, if_pos h1, hfr]
        · rw [if_neg h1] at h
          by_cases h2 : e.SourceNode.Id = id ∧ e.Label = LABEL.SUBCLASS
          · rw [if_pos h2] at h
            cases hsub : getPropertiesFromId g dtContext f st e.TargetNode.Id with
            | none => rw [hsub] at h; cases h
            | some res =>
              obtain ⟨sub, st1⟩ := res
              rw [hsub] at h
              dsimp only at h
              obtain ⟨⟨fs, hfs⟩, hok1⟩ := ih st e.TargetNode.Id sub st1 hok hsub
              cases hr : goProperties g dtContext f id rest st1 with
              | none => rw [hr] at h; cases h
              | some res2 =>
                obtain ⟨props2, st2⟩ := res2
                rw [hr] at h
                simp only [Option.some.injEq, Prod.mk.injEq] at h
                obtain ⟨rfl, rfl⟩ := h
                obtain ⟨⟨fr, hfr⟩, hok2⟩ := ihe st1 id props2 _ hok1 hr
                refine ⟨⟨max fs fr, ?_⟩, hok2⟩
                rw [purePropsGo, if_neg h1, if_pos h2]
                rw [purePropertiesFromId_mono_le (Nat.le_max_left fs fr) hfs]
                rw [purePropsGo_mono_le (Nat.le_max_right fs fr) hfr]
          · rw [if_neg h2] at h
            obtain ⟨⟨fr, hfr⟩, hok1⟩ := ihe st id ps _ hok h
            refine ⟨⟨fr, ?_⟩, hok1⟩
            rw [purePropsGo, if_neg h1, if_neg h2]
            exact hfr
    intro st id v st' hok h
    rw [getPropertiesFromId] at h
    cases hc : st.PropertiesFromId.lookup id with
    | some cached =>
      rw [hc] at h
      simp only [Option.some.injEq, Prod.mk.injEq] at h
      obtain ⟨rfl, rfl⟩ := h
      exact ⟨hok id _ hc, hok⟩
    | none =>
      rw [hc] at h
      by_cases hint : isInternationalizationFromId dtContext id = true
      · rw [if_pos hint] at h
        simp only [Option.some.injEq, Prod.mk.injEq] at h
        obtain ⟨rfl, rfl⟩ := h
        have hv : ∃ f', purePropertiesFromId g dtContext f' id
            = some (dedupSort LANGUAGE_CODES) := by
          refine ⟨1, ?_⟩
          rw [purePropertiesFromId, if_pos hint]
        exact ⟨hv, propsCacheOK_insert hok hv⟩
      · rw [if_neg hint] at h
        cases hr : goProperties g dtContext f id g.Edges st with
        | none => rw [hr] at h; cases h
        | some res =>
          obtain ⟨props1, st1⟩ := res
          rw [hr] at h
          simp only [Option.some.injEq, Prod.mk.injEq] at h
          obtain ⟨rfl, rfl⟩ := h
          obtain ⟨⟨fr, hfr⟩, hok1⟩ := hgo g.Edges st id props1 _ hok hr
          have hv : ∃ f', purePropertiesFromId g dtContext f' id
              = some (dedupSort props1) := by
            refine ⟨fr + 1, ?_⟩
            rw [purePropertiesFromId, if_neg hint, hfr]
          exact ⟨hv, propsCacheOK_insert hok1 hv⟩

theorem label_domain_ne_subclass : LABEL.DOMAIN ≠ LABEL.SUBCLASS := by decide

/-- Every `subClassOf` out-edge of `id` contributes the full pure
property list of its superclass to the loop result. -/
theorem purePropsGo_subclass_subset {g : DigitalTwinMetaModelGraph}
    {dtContext : DigitalTwinMetaModelContext} {f : Nat} {id : String}
    (e : GraphEdge) (hsrc : e.SourceNode.Id = id)
    (hlab : e.Label = LABEL.SUBCLASS) :
    ∀ {es : List GraphEdge}, e ∈ es → ∀ {ps : List String},
      purePropsGo g dtContext f id es = some ps →
      ∃ sub, purePropertiesFromId g dtContext f e.TargetNode.Id = some sub
        ∧ ∀ x ∈ sub, x ∈ ps := by
  intro es
  induction es with
  | nil => intro he; cases he
  | cons e' rest ihe =>
    intro he ps h
    rw [purePropsGo] at h
    rcases List.mem_cons.mp he with rfl | hmem
    · rw [if_neg (by rw [hlab]; exact fun hc => label_domain_ne_subclass hc.2.symm)] at h
      rw [if_pos ⟨hsrc, hlab⟩] at h
      cases hsub : purePropertiesFromId g dtContext f e.TargetNode.Id with
      | none => rw [hsub] at h; cases h
      | some sub =>
        rw [hsub] at h
        dsimp only at h
        cases hr : purePropsGo g dtContext f id rest with
        | none => rw [hr] at h; cases h
        | some props =>
          rw [hr] at h
          simp only [Option.some.injEq] at h
          subst h
          exact ⟨sub, rfl, fun x hx => List.mem_append_left _ hx⟩
    · by_cases h1 : e'.TargetNode.Id = id ∧ e'.Label = LABEL.DOMAIN
      · rw [if_pos h1] at h
        cases hr : purePropsGo g dtContext f id rest with
        | none => rw [hr] at h; cases h
        | some props =>
          rw [hr] at h
          simp only [Option.some.injEq] at h
          subst h
          obtain ⟨sub, hsub, hmem2⟩ := ihe hmem hr
          exact ⟨sub, hsub, fun x hx => List.mem_cons_of_mem _ (hmem2 x hx)⟩
      · rw [if_neg h1] at h
        by_cases h2 : e'.SourceNode.Id = id ∧ e'.Label = LABEL.SUBCLASS
        · rw [if_pos h2] at h
          cases hsub' : purePropertiesFromId g dtContext f e'.TargetNode.Id with
          | none => rw [hsub'] at h; cases h
          | some sub' =>
            rw [hsub'] at h
            dsimp only at h
            cases hr : purePropsGo g dtContext f id rest with
            | none => rw [hr] at h; cases h
            | some props =>
              rw [hr] at h
              simp only [Option.some.injEq] at h
              subst h
              obtain ⟨sub, hsub, hmem2⟩ := ihe hmem hr
              exact ⟨sub, hsub, fun x hx => List.mem_append_right _ (hmem2 x hx)⟩
        · rw [if_neg h2] at h
          exact ihe hmem h

/-- Every `domain` edge targeting `id` contributes its property name to
the loop result. -/
theorem purePropsGo_domain_mem {g : DigitalTwinMetaModelGraph}
    {dtContext : DigitalTwinMetaModelContext} {f : Nat} {id : String}
    (e : GraphEdge) (htgt : e.TargetNode.Id = id)
    (hlab : e.Label = LABEL.DOMAIN) :
    ∀ {es : List GraphEdge}, e ∈ es → ∀ {ps : List String},
      purePropsGo g dtContext f id es = some ps →
      getPropertyNameFromId dtContext e.SourceNode.Id ∈ ps := by
  intro es
  induction es with
  | nil => intro he; cases he
  | cons e' rest ihe =>
    intro he ps h
    rw [purePropsGo] at h
    rcases List.mem_cons.mp he with rfl | hmem
    · rw [if_pos ⟨htgt, hlab⟩] at h
      cases hr : purePropsGo g dtContext f id rest with
      | none => rw [hr] at h; cases h
      | some props =>
        rw [hr] at h
        simp only [Option.some.injEq] at h
        subst h
        exact List.mem_cons_self _ _
    · by_cases h1 : e'.TargetNode.Id = id ∧ e'.Label = LABEL.DOMAIN
      · rw [if_pos h1] at h
        cases hr : purePropsGo g dtContext f id rest with
        | none => rw [hr] at h; cases h
        | some props =>
          rw [hr] at h
          simp only [Option.some.injEq] at h
          subst h
          exact List.mem_cons_of_mem _ (ihe hmem hr)
      · rw [if_neg h1] at h
        by_cases h2 : e'.SourceNode.Id = id ∧ e'.Label = LABEL.SUBCLASS
        · rw [if_pos h2] at h
          cases hsub' : purePropertiesFromId g dtContext f e'.TargetNode.Id with
          | none => rw [hsub'] at h; cases h
          | some sub' =>
            rw [hsub'] at h
            dsimp only at h
            cases hr : purePropsGo g dtContext f id rest with
            | none => rw [hr] at h; cases h
            | some props =>
              rw [hr] at h
              simp only [Option.some.injEq] at h
              subst h
              exact List.mem_append_right _ (ihe hmem hr)
        · rw [if_neg h2] at h
          exact ihe hmem h

/-- Unfolding of a successful non-internationalized pure resolution into
its edge-loop result. -/
theorem purePropertiesFromId_unfold {g : DigitalTwinMetaModelGraph}
    {dtContext : DigitalTwinMetaModelContext} {f : Nat} {id : String}
    {v : List String}
    (h : purePropertiesFromId g dtContext f id = some v)
    (hint : isInternationalizationFromId dtContext id = false) :
    ∃ f' ps, purePropsGo g dtContext f' id g.Edges = some ps
      ∧ v = dedupSort ps := by
  match f with
  | 0 => simp [purePropertiesFromId] at h
  | f + 1 =>
    rw [purePropertiesFromId, if_neg (by simp [hint])] at h
    cases hr : purePropsGo g dtContext f id g.Edges with
    | none => rw [hr] at h; cases h
    | some ps =>
      rw [hr] at h
      simp only [Option.some.injEq] at h
      exact ⟨f, ps, hr, h.symm⟩

theorem getPropertiesFromId_total (g : DigitalTwinMetaModelGraph)
    (dtContext : DigitalTwinMetaModelContext) (ν : String → Nat)
    (hrank : SubclassRank g ν) : ∀ f : Nat, ∀ id st, ν id < f →
    (getPropertiesFromId g dtContext f st id).isSome := by
  intro f
  induction f with
  | zero => intro id st h; cases h
  | succ f ih =>
    intro id st h
    rw [getPropertiesFromId]
    cases hc : st.PropertiesFromId.lookup id with
    | some cached => simp
    | none =>
      by_cases hint : isInternationalizationFromId dtContext id = true
      · simp [hint]
      · simp only [hint, if_false, Bool.false_eq_true]
        have hgo : ∀ es, (∀ e ∈ es, e ∈ g.Edges) → ∀ st1,
            (goProperties g dtContext f id es st1).isSome := by
          intro es
          induction es with
          | nil => intro _ st1; rw [goProperties]; simp
          | cons e rest ihe =>
            intro hsub st1
            rw [goProperties]
            by_cases h1 : e.TargetNode.Id = id ∧ e.Label = LABEL.DOMAIN
            · rw [if_pos h1]
              obtain ⟨r, hr⟩ := Option.isSome_iff_exists.mp
                (ihe (fun e' he' => hsub e' (List.mem_cons_of_mem _ he')) st1)
              obtain ⟨props1, st2⟩ := r
              rw [hr]
              simp
            · rw [if_neg h1]
              by_cases h2 : e.SourceNode.Id = id ∧ e.Label = LABEL.SUBCLASS
              · rw [if_pos h2]
                have htgt : ν e.TargetNode.Id < f := by
                  have := hrank e (hsub e (List.mem_cons_self _ _)) h2.2
                  rw [h2.1] at this
                  omega
                obtain ⟨r, hr⟩ := Option.isSome_iff_exists.mp
                  (ih e.TargetNode.Id st1 htgt)
                obtain ⟨sub1, st2⟩ := r
                rw [hr]
                dsimp only
                obtain ⟨r2, hr2⟩ := Option.isSome_iff_exists.mp
                  (ihe (fun e' he' => hsub e' (List.mem_cons_of_mem _ he')) st2)
                obtain ⟨props2, st3⟩ := r2
                rw [hr2]
                simp
              · rw [if_neg h2]
                exact ihe (fun e' he' => hsub e' (List.mem_cons_of_mem _ he')) st1
        obtain ⟨r, hr⟩ := Option.isSome_iff_exists.mp (hgo g.Edges (fun _ he => he) st)
        obtain ⟨props1, st1⟩ := r
        rw [hr]
        simp

theorem getTypesFromId_total (g : DigitalTwinMetaModelGraph)
    (dtContext : DigitalTwinMetaModelContext) (μ : String → Nat)
    (hrank : TraversalRank g μ) : ∀ f : Nat, ∀ id st, μ id < f →
    (getTypesFromId g dtContext f st id).isSome := by
  intro f
  induction f with
  | zero => intro id st h; cases h
  | succ f ih =>
    intro id st h
    rw [getTypesFromId]
    cases hc : st.TypesFromId.lookup id with
    | some cached => simp
    | none =>
      have hgo : ∀ es, (∀ e ∈ es, e ∈ g.Edges) → ∀ st1,
          (goTypes g dtContext f id es st1).isSome := by
        intro es
        induction es with
        | nil => intro _ st1; rw [goTypes]; simp
        | cons e rest ihe =>
          intro hsub st1
          rw [goTypes]
          dsimp only
          have hstep1 : ∀ st2, (if e.SourceNode.Id = id ∧ e.Label = LABEL.RANGE
              then getTypesFromId g dtContext f st2 e.TargetNode.Id
              else some ([], st2)).isSome := by
            intro st2
            split
            · rename_i hcond
              have : μ e.TargetNode.Id < f := by
                have := hrank.1 e (hsub e (List.mem_cons_self _ _)) hcond.2
                rw [hcond.1] at this
                omega
              exact ih e.TargetNode.Id st2 this
            · simp
          have hstep2 : ∀ st2, (if e.TargetNode.Id = id ∧ e.Label = LABEL.SUBCLASS
              then getTypesFromId g dtContext f st2 e.SourceNode.Id
              else some ([], st2)).isSome := by
            intro st2
            split
            · rename_i hcond
              have : μ e.SourceNode.Id < f := by
                have := hrank.2.1 e (hsub e (List.mem_cons_self _ _)) hcond.2
                rw [hcond.1] at this
                omega
              exact ih e.SourceNode.Id st2 this
            · simp
          obtain ⟨r1, hr1⟩ := Option.isSome_iff_exists.mp (hstep1 st1)
          obtain ⟨c1, st2⟩ := r1
          rw [hr1]
          dsimp only
          obtain ⟨r2, hr2⟩ := Option.isSome_iff_exists.mp (hstep2 st2)
          obtain ⟨c2, st3⟩ := r2
          rw [hr2]
          dsimp only
          obtain ⟨r3, hr3⟩ := Option.isSome_iff_exists.mp
            (ihe (fun e' he' => hsub e' (List.mem_cons_of_mem _ he')) st3)
          obtain ⟨cs, st4⟩ := r3
          rw [hr3]
          simp
      obtain ⟨r, hr⟩ := Option.isSome_iff_exists.mp (hgo g.Edges (fun _ he => he) st)
      obtain ⟨types0, st1⟩ := r
      rw [hr]
      simp

theorem getStringValuesFromId_total (g : DigitalTwinMetaModelGraph)
    (dtContext : DigitalTwinMetaModelContext) (μ : String → Nat)
    (hrank : TraversalRank g μ) : ∀ f : Nat, ∀ id st, μ id < f →
    (getStringValuesFromId g dtContext f st id).isSome := by
  intro f
  induction f with
  | zero => intro id st h; cases h
  | succ f ih =>
    intro id st h
    rw [getStringValuesFromId]
    cases hc : st.StringValuesFromId.lookup id with
    | some cached => simp
    | none =>
      have hgo : ∀ es, (∀ e ∈ es, e ∈ g.Edges) → ∀ st1,
          (goStringValues g dtContext f id es st1).isSome := by
        intro es
        induction es with
        | nil => intro _ st1; rw [goStringValues]; simp
        | cons e rest ihe =>
          intro hsub st1
          rw [goStringValues]
          dsimp only
          have hstep1 : ∀ st2, (if e.SourceNode.Id = id ∧ e.Label = LABEL.RANGE
              then getStringValuesFromId g dtContext f st2 e.TargetNode.Id
              else some ([], st2)).isSome := by
            intro st2
            split
            · rename_i hcond
              have : μ e.TargetNode.Id < f := by
                have := hrank.1 e (hsub e (List.mem_cons_self _ _)) hcond.2
                rw [hcond.1] at this
                omega
              exact ih e.TargetNode.Id st2 this
            · simp
          have hstep2 : ∀ st2, (if e.TargetNode.Id = id ∧ e.Label = LABEL.SUBCLASS
              then getStringValuesFromId g dtContext f st2 e.SourceNode.Id
              else some ([], st2)).isSome := by
            intro st2
            split
            · rename_i hcond
              have : μ e.SourceNode.Id < f := by
                have := hrank.2.1 e (hsub e (List.mem_cons_self _ _)) hcond.2
                rw [hcond.1] at this
                omega
              exact ih e.SourceNode.Id st2 this
            · simp
          have hstep3 : ∀ st2, (if e.TargetNode.Id = id ∧ e.Label = LABEL.TYPE
              then getStringValuesFromId g dtContext f st2 e.SourceNode.Id
              else some ([], st2)).isSome := by
            intro st2
            split
            · rename_i hcond
              have : μ e.SourceNode.Id < f := by
                have := hrank.2.2 e (hsub e (List.mem_cons_self _ _)) hcond.2
                rw [hcond.1] at this
                omega
              exact ih e.SourceNode.Id st2 this
            · simp
          obtain ⟨r1, hr1⟩ := Option.isSome_iff_exists.mp (hstep1 st1)
          obtain ⟨c1, st2⟩ := r1
          rw [hr1]
          dsimp only
          obtain ⟨r2, hr2⟩ := Option.isSome_iff_exists.mp (hstep2 st2)
          obtain ⟨c2, st3⟩ := r2
          rw [hr2]
          dsimp only
          obtain ⟨r3, hr3⟩ := Option.isSome_iff_exists.mp (hstep3 st3)
          obtain ⟨c3, st4⟩ := r3
          rw [hr3]
          dsimp only
          obtain ⟨r4, hr4⟩ := Option.isSome_iff_exists.mp
            (ihe (fun e' he' => hsub e' (List.mem_cons_of_mem _ he')) st4)
          obtain ⟨cs, hps, st5⟩ := r4
          rw [hr4]
          simp
      obtain ⟨r, hr⟩ := Option.isSome_iff_exists.mp (hgo g.Edges (fun _ he => he) st)
      obtain ⟨values, hasProp, st1⟩ := r
      rw [hr]
      dsimp only
      by_cases hv : values.isEmpty = true
      · rw [if_pos hv]
        by_cases hp : hasProp = true
        · rw [if_pos hp]; simp
        · rw [if_neg hp]; simp
      · rw [if_neg hv]; simp

theorem getValueTypesFromId_total (g : DigitalTwinMetaModelGraph)
    (dtContext : DigitalTwinMetaModelContext) (μ : String → Nat)
    (hrank : TraversalRank g μ) (f : Nat) (hμ : ∀ s, μ s < f) :
    ∀ id st, (getValueTypesFromId g dtContext f st id).isSome := by
  intro id st
  rw [getValueTypesFromId]
  by_cases hid : id.isEmpty = true
  · simp [hid]
  · rw [if_neg hid]
    cases hc : st.ValueTypesFromId.lookup id with
    | some cached => simp
    | none =>
      obtain ⟨r, hr⟩ := Option.isSome_iff_exists.mp
        (getStringValuesFromId_total g dtContext μ hrank f id st (hμ id))
      obtain ⟨values, st1⟩ := r
      rw [hr]
      simp

theorem typedPropsLoop_total (g : DigitalTwinMetaModelGraph)
    (dtContext : DigitalTwinMetaModelContext) (μ : String → Nat)
    (hrank : TraversalRank g μ) (f : Nat) (hμ : ∀ s, μ s < f)
    (requiredList : List String) : ∀ keys st,
    (typedPropsLoop g dtContext f requiredList keys st).isSome := by
  intro keys
  induction keys with
  | nil => intro st; rw [typedPropsLoop]; simp
  | cons key rest ihk =>
    intro st
    rw [typedPropsLoop]
    cases hi : getIdFromShortName dtContext key with
    | none => exact ihk st
    | some id =>
      dsimp only
      by_cases hid : id.isEmpty = true
      · rw [if_pos hid]
        exact ihk st
      · rw [if_neg hid]
        by_cases ha : isArrayFromShortName key = true
        · rw [if_pos ha]
          dsimp only
          obtain ⟨r2, hr2⟩ := Option.isSome_iff_exists.mp (ihk st)
          obtain ⟨items, st2⟩ := r2
          rw [hr2]
          simp
        · rw [if_neg ha]
          obtain ⟨r1, hr1⟩ := Option.isSome_iff_exists.mp
            (getValueTypesFromId_total g dtContext μ hrank f hμ id st)
          obtain ⟨vts, st1⟩ := r1
          rw [hr1]
          dsimp only
          obtain ⟨r2, hr2⟩ := Option.isSome_iff_exists.mp (ihk st1)
          obtain ⟨items, st2⟩ := r2
          rw [hr2]
          simp

theorem getTypedPropertiesFromId_total (g : DigitalTwinMetaModelGraph)
    (dtContext : DigitalTwinMetaModelContext) (ν μ : String → Nat)
    (hrankν : SubclassRank g ν) (hrankμ : TraversalRank g μ) (f : Nat)
    (hν : ∀ s, ν s < f) (hμ : ∀ s, μ s < f) :
    ∀ id st, (getTypedPropertiesFromId g dtContext f st id).isSome := by
  intro id st
  rw [getTypedPropertiesFromId]
  cases hc : st.TypedPropertiesFromId.lookup id with
  | some cached => simp
  | none =>
    by_cases hint : isInternationalizationFromId dtContext id = true
    · simp [hint]
    · simp only [hint, if_false, Bool.false_eq_true]
      obtain ⟨r, hr⟩ := Option.isSome_iff_exists.mp
        (getPropertiesFromId_total g dtContext ν hrankν f id st (hν id))
      obtain ⟨keys, st1⟩ := r
      rw [hr]
      dsimp only
      obtain ⟨r2, hr2⟩ := Option.isSome_iff_exists.mp
        (typedPropsLoop_total g dtContext μ hrankμ f hμ _ keys st1)
      obtain ⟨results, st2⟩ := r2
      rw [hr2]
      simp

theorem getTypedPropertiesFromType_total (g : DigitalTwinMetaModelGraph)
    (dtContext : DigitalTwinMetaModelContext) (ν μ : String → Nat)
    (hrankν : SubclassRank g ν) (hrankμ : TraversalRank g μ) (f : Nat)
    (hν : ∀ s, ν s < f) (hμ : ∀ s, μ s < f) :
    ∀ type st, (getTypedPropertiesFromType g dtContext f st type).isSome := by
  intro type st
  rw [getTypedPropertiesFromType]
  by_cases hid : (getIdFromType dtContext type).isEmpty = true
  · rw [if_pos hid]; simp
  · rw [if_neg hid]
    exact getTypedPropertiesFromId_total g dtContext ν μ hrankν hrankμ f hν hμ _ st

theorem getStringValuesFromShortName_total (g : DigitalTwinMetaModelGraph)
    (dtContext : DigitalTwinMetaModelContext) (μ : String → Nat)
    (hrank : TraversalRank g μ) (f : Nat) (hμ : ∀ s, μ s < f) :
    ∀ shortName st,
    (getStringValuesFromShortName g dtContext f st shortName).isSome := by
  intro shortName st
  rw [getStringValuesFromShortName]
  cases hi : getIdFromShortName dtContext shortName with
  | none => simp
  | some id =>
    dsimp only
    by_cases hmagic : id = "http://azureiot.com/v1/classes/InterfaceInstance/schema"
    · rw [if_pos hmagic]; simp
    · rw [if_neg hmagic]
      by_cases hid : id.isEmpty = true
      · rw [if_pos hid]; simp
      · rw [if_neg hid]
        exact getStringValuesFromId_total g dtContext μ hrank f id st (hμ id)

end DigitalTwinMetaModelParser

namespace DigitalTwinDiagnostic

theorem getTypeDerived_total (g : DigitalTwinMetaModelGraph)
    (dtContext : DigitalTwinMetaModelContext) (μ : String → Nat)
    (hrank : TraversalRank g μ) (f : Nat) (hμ : ∀ s, μ s < f) :
    ∀ st document jsonKey,
    (getTypeDerived g dtContext f st document jsonKey).isSome := by
  intro st document jsonKey
  unfold getTypeDerived
  cases jsonKey with
  | none => simp
  | some key =>
    dsimp only
    cases hi : getIdFromShortName dtContext key with
    | none => simp
    | some id =>
      dsimp only
      by_cases hid : id.isEmpty = true
      · rw [if_pos hid]; simp
      · rw [if_neg hid]
        obtain ⟨r, hr⟩ := Option.isSome_iff_exists.mp
          (getTypesFromId_total g dtContext μ hrank f id st (hμ id))
        obtain ⟨types, st1⟩ := r
        rw [hr]
        dsimp only
        cases types with
        | nil => simp
        | cons t rest => cases rest <;> simp

theorem getType_total (g : DigitalTwinMetaModelGraph)
    (dtContext : DigitalTwinMetaModelContext) (μ : String → Nat)
    (hrank : TraversalRank g μ) (f : Nat) (hμ : ∀ s, μ s < f) :
    ∀ st document props jsonKey,
    (getType g dtContext f st document props jsonKey).isSome := by
  intro st document props jsonKey
  rw [getType]
  cases hl : Json.lookupProp "@type" props with
  | none => exact getTypeDerived_total g dtContext μ hrank f hμ st document jsonKey
  | some v =>
    cases v with
    | str sp s => simp
    | arr sp els => simp
    | obj sp ps => exact getTypeDerived_total g dtContext μ hrank f hμ st document jsonKey
    | num sp q => exact getTypeDerived_total g dtContext μ hrank f hμ st document jsonKey
    | bool sp b => exact getTypeDerived_total g dtContext μ hrank f hμ st document jsonKey
    | null sp => exact getTypeDerived_total g dtContext μ hrank f hμ st document jsonKey

theorem invalidTypeCheck_total (g : DigitalTwinMetaModelGraph)
    (dtContext : DigitalTwinMetaModelContext) (μ : String → Nat)
    (hrank : TraversalRank g μ) (f : Nat) (hμ : ∀ s, μ s < f) :
    ∀ st document objSpan props jsonKey types,
    (invalidTypeCheck g dtContext f st document objSpan props jsonKey types).isSome := by
  intro st document objSpan props jsonKey types
  rw [invalidTypeCheck]
  obtain ⟨r, hr⟩ := Option.isSome_iff_exists.mp
    (getType_total g dtContext μ hrank f hμ st document props jsonKey)
  obtain ⟨tr, st1⟩ := r
  rw [hr]
  cases tr with
  | single t =>
    dsimp only
    repeat' split
    all_goals simp
  | multiple ts =>
    dsimp only
    repeat' split
    all_goals simp
  | missing => simp

theorem getInvalidTypeIssues_total (g : DigitalTwinMetaModelGraph)
    (dtContext : DigitalTwinMetaModelContext) (μ : String → Nat)
    (hrank : TraversalRank g μ) (f : Nat) (hμ : ∀ s, μ s < f) :
    ∀ st document objSpan props jsonKey,
    (getInvalidTypeIssues g dtContext f st document objSpan props jsonKey).isSome := by
  intro st document objSpan props jsonKey
  unfold getInvalidTypeIssues
  cases jsonKey with
  | none =>
    exact invalidTypeCheck_total g dtContext μ hrank f hμ st document objSpan props none _
  | some key =>
    dsimp only
    cases hi : getIdFromShortName dtContext key with
    | none => simp
    | some id =>
      dsimp only
      by_cases hid : id.isEmpty = true
      · rw [if_pos hid]; simp
      · rw [if_neg hid]
        obtain ⟨r, hr⟩ := Option.isSome_iff_exists.mp
          (getTypesFromId_total g dtContext μ hrank f id st (hμ id))
        obtain ⟨types, st1⟩ := r
        rw [hr]
        exact invalidTypeCheck_total g dtContext μ hrank f hμ st1 document objSpan props _ types

theorem unexpectedCollect_total (g : DigitalTwinMetaModelGraph)
    (dtContext : DigitalTwinMetaModelContext) (ν μ : String → Nat)
    (hrankν : SubclassRank g ν) (hrankμ : TraversalRank g μ) (f : Nat)
    (hν : ∀ s, ν s < f) (hμ : ∀ s, μ s < f) :
    ∀ ts st, (unexpectedCollect g dtContext f ts st).isSome := by
  intro ts
  induction ts with
  | nil => intro st; rw [unexpectedCollect]; simp
  | cons t rest iht =>
    intro st
    rw [unexpectedCollect]
    obtain ⟨r, hr⟩ := Option.isSome_iff_exists.mp
      (getTypedPropertiesFromType_total g dtContext ν μ hrankν hrankμ f hν hμ t st)
    obtain ⟨typed, st1⟩ := r
    rw [hr]
    dsimp only
    obtain ⟨r2, hr2⟩ := Option.isSome_iff_exists.mp (iht st1)
    obtain ⟨restProps, st2⟩ := r2
    rw [hr2]
    simp

theorem getUnexpectedPropertiesIssues_total (g : DigitalTwinMetaModelGraph)
    (dtContext : DigitalTwinMetaModelContext) (ν μ : String → Nat)
    (hrankν : SubclassRank g ν) (hrankμ : TraversalRank g μ) (f : Nat)
    (hν : ∀ s, ν s < f) (hμ : ∀ s, μ s < f) :
    ∀ st props tr,
    (getUnexpectedPropertiesIssues g dtContext f st props tr).isSome := by
  intro st props tr
  unfold getUnexpectedPropertiesIssues
  cases tr with
  | multiple ts =>
    dsimp only
    obtain ⟨r, hr⟩ := Option.isSome_iff_exists.mp
      (unexpectedCollect_total g dtContext ν μ hrankν hrankμ f hν hμ ts st)
    obtain ⟨properties, st1⟩ := r
    rw [hr]
    simp
  | single t =>
    dsimp only
    obtain ⟨r, hr⟩ := Option.isSome_iff_exists.mp
      (getTypedPropertiesFromType_total g dtContext ν μ hrankν hrankμ f hν hμ t st)
    obtain ⟨typed, st1⟩ := r
    rw [hr]
    simp
  | missing => simp

theorem getStringIssues_total (g : DigitalTwinMetaModelGraph)
    (dtContext : DigitalTwinMetaModelContext) (μ : String → Nat)
    (hrankμ : TraversalRank g μ) (f : Nat) (hμ : ∀ s, μ s < f) :
    ∀ st document sp value isInlineInterface jsonKey,
    (getStringIssues g dtContext f st document sp value isInlineInterface jsonKey).isSome := by
  intro st document sp value isInlineInterface jsonKey
  unfold getStringIssues
  cases jsonKey with
  | none => simp
  | some key =>
    dsimp only
    by_cases h1 : key = "@context"
    · rw [if_pos h1]
      dsimp only
      repeat' split
      all_goals simp
    · rw [if_neg h1]
      by_cases h2 : key = "@id"
      · rw [if_pos h2]
        dsimp only
        repeat' split
        all_goals simp
      · rw [if_neg h2]
        dsimp only
        obtain ⟨r, hr⟩ := Option.isSome_iff_exists.mp
          (getStringValuesFromShortName_total g dtContext μ hrankμ f hμ key st)
        obtain ⟨values, st1⟩ := r
        rw [hr]
        dsimp only
        repeat' split
        all_goals simp

theorem sizeOf_lookupProp {name : String} :
    ∀ {props : List (Json.PropName × Json.Value)} {v : Json.Value},
    Json.lookupProp name props = some v → sizeOf v < sizeOf props := by
  intro props
  induction props with
  | nil => intro v h; simp [Json.lookupProp] at h
  | cons p rest ihp =>
    intro v h
    obtain ⟨pn, pv⟩ := p
    rw [Json.lookupProp] at h
    by_cases he : pn.name = name
    · rw [if_pos he] at h
      cases h
      simp
      omega
    · rw [if_neg he] at h
      have := ihp h
      simp
      omega

theorem getJsonValueIssues_total (g : DigitalTwinMetaModelGraph)
    (dtContext : DigitalTwinMetaModelContext) (ν μ : String → Nat)
    (hrankν : SubclassRank g ν) (hrankμ : TraversalRank g μ) (rfuel : Nat)
    (hν : ∀ s, ν s < rfuel) (hμ : ∀ s, μ s < rfuel) : ∀ df : Nat,
    ∀ v st document isInline jsonKey, sizeOf v < df →
    (getJsonValueIssues g dtContext rfuel df st document v isInline jsonKey).isSome := by
  intro df
  induction df with
  | zero => intro v st document isInline jsonKey h; exact absurd h (Nat.not_lt_zero _)
  | succ df ih =>
    intro v st document isInline jsonKey h
    cases v with
    | obj sp props =>
      have hprops : sizeOf props < df + 1 := by
        simp at h
        omega
      have hchild : ∀ names st3,
          (objChildrenLoop g dtContext rfuel df document props isInline jsonKey
            names st3).isSome := by
        intro names
        induction names with
        | nil => intro st3; rw [objChildrenLoop]; simp
        | cons nm rest ihn =>
          intro st3
          rw [objChildrenLoop]
          dsimp only
          cases hl : Json.lookupProp nm props with
          | none => exact ihn st3
          | some childValue =>
            dsimp only
            have hsz : sizeOf childValue < df := by
              have := sizeOf_lookupProp hl
              omega
            obtain ⟨r, hr⟩ := Option.isSome_iff_exists.mp
              (ih childValue st3 document
                (if isInline = true then (nm, true)
                 else if jsonKey = some "implements" ∧ nm = "schema" then
                   (DTDLKeywords.inlineInterfaceKeyName, true)
                 else (nm, false)).2
                (some (if isInline = true then (nm, true)
                 else if jsonKey = some "implements" ∧ nm = "schema" then
                   (DTDLKeywords.inlineInterfaceKeyName, true)
                 else (nm, false)).1) hsz)
            obtain ⟨childIssues, st4⟩ := r
            rw [hr]
            dsimp only
            obtain ⟨r2, hr2⟩ := Option.isSome_iff_exists.mp (ihn st4)
            obtain ⟨restIssues, st5⟩ := r2
            rw [hr2]
            simp
      rw [getJsonValueIssues]
      rw [getObjectIssues.eq_def]
      obtain ⟨r, hr⟩ := Option.isSome_iff_exists.mp
        (getInvalidTypeIssues_total g dtContext μ hrankμ rfuel hμ st document sp
          props jsonKey)
      obtain ⟨optIssues, st1⟩ := r
      rw [hr]
      cases optIssues with
      | some typeIssues => simp
      | none =>
        dsimp only
        obtain ⟨r2, hr2⟩ := Option.isSome_iff_exists.mp
          (getType_total g dtContext μ hrankμ rfuel hμ st1 document props jsonKey)
        obtain ⟨tr, st2⟩ := r2
        rw [hr2]
        cases tr with
        | missing => simp
        | single t =>
          dsimp only
          obtain ⟨r3, hr3⟩ := Option.isSome_iff_exists.mp
            (getUnexpectedPropertiesIssues_total g dtContext ν μ hrankν hrankμ
              rfuel hν hμ st2 props (.single t))
          obtain ⟨unexpectedIssues, st3⟩ := r3
          rw [hr3]
          dsimp only
          obtain ⟨r4, hr4⟩ := Option.isSome_iff_exists.mp
            (hchild (props.map (fun p => p.1.name)) st3)
          obtain ⟨childIssues, st4⟩ := r4
          rw [hr4]
          simp
        | multiple ts =>
          dsimp only
          obtain ⟨r3, hr3⟩ := Option.isSome_iff_exists.mp
            (getUnexpectedPropertiesIssues_total g dtContext ν μ hrankν hrankμ
              rfuel hν hμ st2 props (.multiple ts))
          obtain ⟨unexpectedIssues, st3⟩ := r3
          rw [hr3]
          dsimp only
          obtain ⟨r4, hr4⟩ := Option.isSome_iff_exists.mp
            (hchild (props.map (fun p => p.1.name)) st3)
          obtain ⟨childIssues, st4⟩ := r4
          rw [hr4]
          simp
    | arr sp els =>
      have hels : ∀ el ∈ els, sizeOf el < df := by
        intro el hel
        have h1 := List.sizeOf_lt_of_mem hel
        simp at h
        omega
      have harr : ∀ (els2 : List Json.Value), (∀ el ∈ els2, sizeOf el < df) →
          ∀ st2, (getArrayIssues g dtContext rfuel df st2 document els2 isInline
            jsonKey).isSome := by
        intro els2
        induction els2 with
        | nil => intro _ st2; rw [getArrayIssues]; simp
        | cons el rest ihe =>
          intro hsz st2
          rw [getArrayIssues]
          obtain ⟨r, hr⟩ := Option.isSome_iff_exists.mp
            (ih el st2 document isInline jsonKey (hsz el (List.mem_cons_self _ _)))
          obtain ⟨elementIssues, st3⟩ := r
          rw [hr]
          dsimp only
          obtain ⟨r2, hr2⟩ := Option.isSome_iff_exists.mp
            (ihe (fun e' he' => hsz e' (List.mem_cons_of_mem _ he')) st3)
          obtain ⟨restIssues, st4⟩ := r2
          rw [hr2]
          simp
      rw [getJsonValueIssues]
      obtain ⟨r, hr⟩ := Option.isSome_iff_exists.mp (harr els hels st)
      obtain ⟨arrayIssues, st1⟩ := r
      rw [hr]
      simp
    | str sp s =>
      rw [getJsonValueIssues]
      exact getStringIssues_total g dtContext μ hrankμ rfuel hμ st document sp s
        isInline jsonKey
    | num sp q => rw [getJsonValueIssues] <;> simp
    | bool sp b => rw [getJsonValueIssues] <;> simp
    | null sp => rw [getJsonValueIssues] <;> simp

theorem getTypeIssues_total (g : DigitalTwinMetaModelGraph)
    (dtContext : DigitalTwinMetaModelContext) (μ : String → Nat)
    (hrankμ : TraversalRank g μ) (rfuel : Nat) (hμ : ∀ s, μ s < rfuel) :
    ∀ df : Nat, ∀ v st document jsonKey isArrayElement, sizeOf v < df →
    (getTypeIssues g dtContext rfuel df st document v jsonKey isArrayElement).isSome := by
  intro df
  induction df with
  | zero => intro v st document jsonKey isArrayElement h; exact absurd h (Nat.not_lt_zero _)
  | succ df ih =>
    intro v st document jsonKey isArrayElement h
    have harr : ∀ jk (els2 : List Json.Value), (∀ el ∈ els2, sizeOf el < df) →
        ∀ st2, (typeIssuesArrayLoop g dtContext rfuel df document jk els2
          st2).isSome := by
      intro jk els2
      induction els2 with
      | nil => intro _ st2; rw [typeIssuesArrayLoop]; simp
      | cons el rest ihe =>
        intro hsz st2
        rw [typeIssuesArrayLoop]
        obtain ⟨r, hr⟩ := Option.isSome_iff_exists.mp
          (ih el st2 document jk true (hsz el (List.mem_cons_self _ _)))
        obtain ⟨elementIssues, st3⟩ := r
        rw [hr]
        dsimp only
        obtain ⟨r2, hr2⟩ := Option.isSome_iff_exists.mp
          (ihe (fun e' he' => hsz e' (List.mem_cons_of_mem _ he')) st3)
        obtain ⟨restIssues, st4⟩ := r2
        rw [hr2]
        simp
    have hobjloop : ∀ (props2 : List (Json.PropName × Json.Value)),
        (∀ k v2, Json.lookupProp k props2 = some v2 → sizeOf v2 < df) →
        ∀ keys st2, (typeIssuesObjectLoop g dtContext rfuel df document props2 keys
          st2).isSome := by
      intro props2 hsz keys
      induction keys with
      | nil => intro st2; rw [typeIssuesObjectLoop]; simp
      | cons key rest ihk =>
        intro st2
        rw [typeIssuesObjectLoop]
        cases hl : Json.lookupProp key props2 with
        | none => exact ihk st2
        | some value =>
          dsimp only
          obtain ⟨r, hr⟩ := Option.isSome_iff_exists.mp
            (ih value st2 document (some key) false (hsz key value hl))
          obtain ⟨childIssues, st3⟩ := r
          rw [hr]
          dsimp only
          obtain ⟨r2, hr2⟩ := Option.isSome_iff_exists.mp (ihk st3)
          obtain ⟨restIssues, st4⟩ := r2
          rw [hr2]
          simp
    rw [getTypeIssues.eq_def]
    dsimp only
    cases jsonKey with
    | none =>
      dsimp only
      cases v with
      | arr sp els =>
        refine harr none els (fun el hel => ?_) st
        have h1 := List.sizeOf_lt_of_mem hel
        simp at h
        omega
      | obj sp props =>
        refine hobjloop props (fun k v2 hl => ?_) (props.map (fun p => p.1.name)) st
        have := sizeOf_lookupProp hl
        simp at h
        omega
      | str sp s => simp
      | num sp q =>
        dsimp only
        repeat' split
        all_goals simp
      | bool sp b => simp
      | null sp => simp
    | some key =>
      dsimp only
      by_cases hak : ¬isArrayElement = true ∧ isArrayFromShortName key = true
      · rw [if_pos hak]
        dsimp only
        cases v with
        | arr sp els =>
          refine harr (some key) els (fun el hel => ?_) st
          have h1 := List.sizeOf_lt_of_mem hel
          simp at h
          omega
        | obj sp props =>
          refine hobjloop props (fun k v2 hl => ?_) (props.map (fun p => p.1.name)) st
          have := sizeOf_lookupProp hl
          simp at h
          omega
        | str sp s => simp
        | num sp q =>
          dsimp only
          repeat' split
          all_goals simp
        | bool sp b => simp
        | null sp => simp
      · rw [if_neg hak]
        cases hid : getIdFromShortName dtContext key with
        | none =>
          simp
          intro hae
          cases hb : isArrayFromShortName key with
          | false => rfl
          | true => exact absurd ⟨by simp [hae], hb⟩ hak
        | some id =>
          dsimp only
          by_cases hempty : id.isEmpty = true
          · rw [if_pos hempty]
            simp [hempty]
            intro hae
            cases hb : isArrayFromShortName key with
            | false => rfl
            | true => exact absurd ⟨by simp [hae], hb⟩ hak
          · rw [if_neg hempty]
            obtain ⟨r, hr⟩ := Option.isSome_iff_exists.mp
              (getValueTypesFromId_total g dtContext μ hrankμ rfuel hμ id st)
            obtain ⟨rawValueTypes, st1⟩ := r
            rw [hr]
            dsimp only
            cases v with
            | arr sp els =>
              refine harr (some key) els (fun el hel => ?_) st1
              have h1 := List.sizeOf_lt_of_mem hel
              simp at h
              omega
            | obj sp props =>
              refine hobjloop props (fun k v2 hl => ?_) (props.map (fun p => p.1.name)) st1
              have := sizeOf_lookupProp hl
              simp at h
              omega
            | str sp s => simp
            | num sp q =>
              dsimp only
              repeat' split
              all_goals simp
            | bool sp b => simp
            | null sp => simp

theorem getIssues_total (g : DigitalTwinMetaModelGraph)
    (dtContext : DigitalTwinMetaModelContext) (ν μ : String → Nat)
    (hrankν : SubclassRank g ν) (hrankμ : TraversalRank g μ) (rfuel : Nat)
    (hν : ∀ s, ν s < rfuel) (hμ : ∀ s, μ s < rfuel) :
    ∀ st document, ∃ dfuel,
    (getIssues g dtContext rfuel dfuel st document).isSome := by
  intro st document
  cases hp : Json.parse document.text with
  | none =>
    refine ⟨1, ?_⟩
    rw [getIssues, hp]
    simp
  | some v =>
    refine ⟨sizeOf v + 1, ?_⟩
    rw [getIssues, hp]
    dsimp only
    obtain ⟨r, hr⟩ := Option.isSome_iff_exists.mp
      (getJsonValueIssues_total g dtContext ν μ hrankν hrankμ rfuel hν hμ
        (sizeOf v + 1) v st document false none (Nat.lt_succ_self _))
    obtain ⟨issues1, st1⟩ := r
    rw [hr]
    dsimp only
    obtain ⟨r2, hr2⟩ := Option.isSome_iff_exists.mp
      (getTypeIssues_total g dtContext μ hrankμ rfuel hμ (sizeOf v + 1) v st1
        document none false (Nat.lt_succ_self _))
    obtain ⟨issues2, st2⟩ := r2
    rw [hr2]
    simp

end DigitalTwinDiagnostic

namespace DigitalTwinMetaModelParser

theorem cycProps_none : ∀ f : Nat, ∀ st : PCache,
    st.PropertiesFromId.lookup "v/A" = none →
    st.PropertiesFromId.lookup "v/B" = none →
    getPropertiesFromId cycGraph cycCtx f st "v/A" = none ∧
    getPropertiesFromId cycGraph cycCtx f st "v/B" = none := by
  intro f
  induction f with
  | zero =>
    intro st hA hB
    constructor <;> rw [getPropertiesFromId]
  | succ f ih =>
    intro st hA hB
    have hedges : cycGraph.Edges = [eCycAB, eCycBA] := rfl
    constructor
    · rw [getPropertiesFromId, hA]
      dsimp only
      rw [if_neg (by decide : ¬isInternationalizationFromId cycCtx "v/A" = true)]
      rw [hedges, goProperties]
      rw [if_neg (by decide), if_pos (by decide)]
      have ht : eCycAB.TargetNode.Id = "v/B" := rfl
      rw [ht, (ih st hA hB).2]
    · rw [getPropertiesFromId, hB]
      dsimp only
      rw [if_neg (by decide : ¬isInternationalizationFromId cycCtx "v/B" = true)]
      rw [hedges, goProperties]
      rw [if_neg (by decide), if_neg (by decide)]
      rw [goProperties]
      rw [if_neg (by decide), if_pos (by decide)]
      have ht : eCycBA.TargetNode.Id = "v/A" := rfl
      rw [ht, (ih st hA hB).1]

end DigitalTwinMetaModelParser

/-- Claim C5, counterexample: on a graph whose `subClassOf` relation is cyclic
(`v/A subClassOf v/B subClassOf v/A`), `getPropertiesFromId` never
terminates — the caches are written only after the recursion returns,
so no amount of fuel makes the traversal of `v/A` produce a result. -/
theorem claim_C5_counterexample :
    ¬ ∃ (f : Nat) (r : List String × PCache),
      DigitalTwinMetaModelParser.getPropertiesFromId cycGraph cycCtx f
        emptyCache "v/A" = some r := by
  rintro ⟨f, r, hr⟩
  have h := (DigitalTwinMetaModelParser.cycProps_none f
    emptyCache rfl rfl).1
  rw [h] at hr
  cases hr

/-- Claim C5 (amended): the resolver's recursive traversals and the diagnostics
pass terminate provided the graph admits ranking functions — `ν`
decreasing along `subClassOf` edges (source to target) and `μ`
decreasing along the edges followed by `getTypesFromId` and
`getStringValuesFromId` — whose values are globally bounded by the
fuel.  Under those hypotheses `getPropertiesFromId`, `getTypesFromId`
and `getStringValuesFromId` return a result on every id and cache
state, and `getIssues` returns a result on every document for a large
enough recursion depth.  Without such rankings the claim fails: see the
cyclic counterexample. -/
theorem claim_C5_amended (g : DigitalTwinMetaModelGraph)
    (dtContext : DigitalTwinMetaModelContext) (ν μ : String → Nat)
    (hrankν : DigitalTwinMetaModelParser.SubclassRank g ν)
    (hrankμ : DigitalTwinMetaModelParser.TraversalRank g μ)
    (rfuel : Nat) (hν : ∀ s, ν s < rfuel) (hμ : ∀ s, μ s < rfuel) :
    (∀ st id, (DigitalTwinMetaModelParser.getPropertiesFromId g dtContext
      rfuel st id).isSome) ∧
    (∀ st id, (DigitalTwinMetaModelParser.getTypesFromId g dtContext
      rfuel st id).isSome) ∧
    (∀ st id, (DigitalTwinMetaModelParser.getStringValuesFromId g dtContext
      rfuel st id).isSome) ∧
    (∀ st document, ∃ dfuel,
      (DigitalTwinDiagnostic.getIssues g dtContext rfuel dfuel st
        document).isSome) := by
  refine ⟨fun st id => ?_, fun st id => ?_, fun st id => ?_,
    fun st document => ?_⟩
  · exact DigitalTwinMetaModelParser.getPropertiesFromId_total g dtContext ν
      hrankν rfuel id st (hν id)
  · exact DigitalTwinMetaModelParser.getTypesFromId_total g dtContext μ
      hrankμ rfuel id st (hμ id)
  · exact DigitalTwinMetaModelParser.getStringValuesFromId_total g dtContext μ
      hrankμ rfuel id st (hμ id)
  · exact DigitalTwinDiagnostic.getIssues_total g dtContext ν μ hrankν hrankμ
      rfuel hν hμ st document

/-- Witness for the amended claim C5 on the edgeless graph with the
constant rank `0` and fuel `1`. -/
theorem claim_C5_witness :
    (∀ st id, (DigitalTwinMetaModelParser.getPropertiesFromId c5wGraph cycCtx
      1 st id).isSome) ∧
    (∀ st id, (DigitalTwinMetaModelParser.getTypesFromId c5wGraph cycCtx
      1 st id).isSome) ∧
    (∀ st id, (DigitalTwinMetaModelParser.getStringValuesFromId c5wGraph cycCtx
      1 st id).isSome) ∧
    (∀ st document, ∃ dfuel,
      (DigitalTwinDiagnostic.getIssues c5wGraph cycCtx 1 dfuel st
        document).isSome) :=
  claim_C5_amended c5wGraph cycCtx (fun _ => 0) (fun _ => 0)
    (fun e he _ => absurd he (List.not_mem_nil e))
    ⟨fun e he _ => absurd he (List.not_mem_nil e),
     fun e he _ => absurd he (List.not_mem_nil e),
     fun e he _ => absurd he (List.not_mem_nil e)⟩
    1 (fun _ => Nat.one_pos) (fun _ => Nat.one_pos)

/-- Claim C1, counterexample: on `svOrderGraph`, `getStringValuesFromId`
returns `["b", "a"]`, which is not lexicographically sorted — the claim
that every list returned by the three queries is sorted fails. -/
theorem claim_C1_counterexample :
    getStringValuesFromId svOrderGraph smallCtx 2 emptyCache "X"
      = some (["b", "a"], svOrderCache)
    ∧ ¬ List.Sorted (· ≤ ·) ["b", "a"] := by
  constructor
  · simp only [getStringValuesFromId, goStringValues, svOrderGraph, smallCtx,
      emptyCache, svOrderCache, getShortNameFromId, findShortNameEntry,
      List.lookup]
    decide
  · intro hs
    have h1 := List.rel_of_sorted_cons hs "a" (by simp)
    rw [String.le_iff_toList_le] at h1
    revert h1
    decide

/-- Claim C1 (amended): repeated calls with the same id return identical
results for all three queries (the second call hits the cache written
by the first); `getPropertiesFromId` and `getTypesFromId` results are
additionally lexicographically sorted and duplicate-free whenever the
corresponding cache held only sorted duplicate-free values (as the
fresh cache does); `getStringValuesFromId` results carry no such
normalization. -/
theorem claim_C1_amended (g : DigitalTwinMetaModelGraph)
    (dtContext : DigitalTwinMetaModelContext) :
    (∀ f st id v st' f', getPropertiesFromId g dtContext f st id = some (v, st') →
      getPropertiesFromId g dtContext (f' + 1) st' id = some (v, st')) ∧
    (∀ f st id v st' f', getTypesFromId g dtContext f st id = some (v, st') →
      getTypesFromId g dtContext (f' + 1) st' id = some (v, st')) ∧
    (∀ f st id v st' f', getStringValuesFromId g dtContext f st id = some (v, st') →
      getStringValuesFromId g dtContext (f' + 1) st' id = some (v, st')) ∧
    (∀ f st id v st', PropsCacheSorted st →
      getPropertiesFromId g dtContext f st id = some (v, st') →
      List.Sorted (· ≤ ·) v ∧ v.Nodup) ∧
    (∀ f st id v st', TypesCacheSorted st →
      getTypesFromId g dtContext f st id = some (v, st') →
      List.Sorted (· ≤ ·) v ∧ v.Nodup) :=
  ⟨fun _ _ _ _ _ f' h => getPropertiesFromId_stable h f',
   fun _ _ _ _ _ f' h => getTypesFromId_stable h f',
   fun _ _ _ _ _ f' h => getStringValuesFromId_stable h f',
   fun f st id v st' hok h => (getPropertiesFromId_sorted g dtContext f st id v st' hok h).1,
   fun f st id v st' hok h => (getTypesFromId_sorted g dtContext f st id v st' hok h).1⟩

/-- Witness for the amended claim C1 at concrete inputs on an edgeless
graph with pre-populated caches. -/
theorem claim_C1_witness :
    (getPropertiesFromId noEdgeGraph smallCtx 1 (emptyCache.insertProps "v/x" []) "v/x"
      = some ([], emptyCache.insertProps "v/x" []))
    ∧ (getTypesFromId noEdgeGraph smallCtx 1 (emptyCache.insertTypes "v/x" ["x"]) "v/x"
      = some (["x"], emptyCache.insertTypes "v/x" ["x"]))
    ∧ (getStringValuesFromId noEdgeGraph smallCtx 1
        (emptyCache.insertStringValues "v/x" ["x"]) "v/x"
      = some (["x"], emptyCache.insertStringValues "v/x" ["x"]))
    ∧ (List.Sorted (· ≤ ·) ["x"] ∧ ["x"].Nodup) := by
  refine ⟨(claim_C1_amended noEdgeGraph smallCtx).1 1 emptyCache "v/x" [] _ 0 ?_,
    (claim_C1_amended noEdgeGraph smallCtx).2.1 1 emptyCache "v/x" ["x"] _ 0 ?_,
    (claim_C1_amended noEdgeGraph smallCtx).2.2.1 1 emptyCache "v/x" ["x"] _ 0 ?_,
    (claim_C1_amended noEdgeGraph smallCtx).2.2.2.2 1 emptyCache "v/x" ["x"]
      (emptyCache.insertTypes "v/x" ["x"]) typesCacheSorted_empty ?_⟩
  · simp only [getPropertiesFromId, goProperties, noEdgeGraph, smallCtx,
      emptyCache, List.lookup]
    decide
  · simp only [getTypesFromId, goTypes, noEdgeGraph, smallCtx, emptyCache,
      List.lookup]
    decide
  · simp only [getStringValuesFromId, goStringValues, noEdgeGraph, smallCtx,
      emptyCache, List.lookup]
    decide
  · simp only [getTypesFromId, goTypes, noEdgeGraph, smallCtx, emptyCache,
      List.lookup]
    decide

/-- Claim C4: the memoized queries are call-stable — once a call to
`getPropertiesFromId`, `getTypesFromId`, `getStringValuesFromId` or
`getTypedPropertiesFromId` has returned a value together with an
updated cache, any repeated call on that cache with the same id returns
the very same value (the cached entry), for any fuel.  This is the
embedding of the source's reference-identity claim: the second call
returns the stored array itself. -/
theorem claim_C4 (g : DigitalTwinMetaModelGraph)
    (dtContext : DigitalTwinMetaModelContext) :
    (∀ f st id v st' f', getPropertiesFromId g dtContext f st id = some (v, st') →
      getPropertiesFromId g dtContext (f' + 1) st' id = some (v, st')) ∧
    (∀ f st id v st' f', getTypesFromId g dtContext f st id = some (v, st') →
      getTypesFromId g dtContext (f' + 1) st' id = some (v, st')) ∧
    (∀ f st id v st' f', getStringValuesFromId g dtContext f st id = some (v, st') →
      getStringValuesFromId g dtContext (f' + 1) st' id = some (v, st')) ∧
    (∀ f st id v st' f', getTypedPropertiesFromId g dtContext f st id = some (v, st') →
      getTypedPropertiesFromId g dtContext f' st' id = some (v, st')) :=
  ⟨fun _ _ _ _ _ f' h => getPropertiesFromId_stable h f',
   fun _ _ _ _ _ f' h => getTypesFromId_stable h f',
   fun _ _ _ _ _ f' h => getStringValuesFromId_stable h f',
   fun _ _ _ _ _ f' h => getTypedPropertiesFromId_stable h f'⟩

/-- Witness for claim C4 at concrete inputs on an edgeless graph with
pre-populated caches. -/
theorem claim_C4_witness :
    (getPropertiesFromId noEdgeGraph smallCtx 1 (emptyCache.insertProps "v/y" []) "v/y"
      = some ([], emptyCache.insertProps "v/y" []))
    ∧ (getTypesFromId noEdgeGraph smallCtx 1 (emptyCache.insertTypes "v/y" ["y"]) "v/y"
      = some (["y"], emptyCache.insertTypes "v/y" ["y"]))
    ∧ (getStringValuesFromId noEdgeGraph smallCtx 1
        (emptyCache.insertStringValues "v/y" ["y"]) "v/y"
      = some (["y"], emptyCache.insertStringValues "v/y" ["y"]))
    ∧ (getTypedPropertiesFromId noEdgeGraph smallCtx 2
        ((emptyCache.insertProps "v/y" []).insertTyped "v/y" []) "v/y"
      = some ([], (emptyCache.insertProps "v/y" []).insertTyped "v/y" [])) := by
  refine ⟨(claim_C4 noEdgeGraph smallCtx).1 1 emptyCache "v/y" [] _ 0 ?_,
    (claim_C4 noEdgeGraph smallCtx).2.1 1 emptyCache "v/y" ["y"] _ 0 ?_,
    (claim_C4 noEdgeGraph smallCtx).2.2.1 1 emptyCache "v/y" ["y"] _ 0 ?_,
    (claim_C4 noEdgeGraph smallCtx).2.2.2 1 emptyCache "v/y" [] _ 2 ?_⟩
  · simp only [getPropertiesFromId, goProperties, noEdgeGraph, smallCtx,
      emptyCache, List.lookup]
    decide
  · simp only [getTypesFromId, goTypes, noEdgeGraph, smallCtx, emptyCache,
      List.lookup]
    decide
  · simp only [getStringValuesFromId, goStringValues, noEdgeGraph, smallCtx,
      emptyCache, List.lookup]
    decide
  · simp only [getTypedPropertiesFromId, typedPropsLoop, getPropertiesFromId,
      goProperties, noEdgeGraph, smallCtx, emptyCache, List.lookup]
    decide

/-- Claim C2, counterexample: for an internationalization-flagged id,
`getPropertiesFromId` does not return the raw built-in language-code
list — the source applies `uniq(...).sort()` and `LANGUAGE_CODES`
contains a duplicate (`az-AZ` appears twice), so the returned list
differs from the raw list. -/
theorem claim_C2_counterexample :
    (getPropertiesFromId noEdgeGraph intlCtx 1 emptyCache "v/I").map Prod.fst
      ≠ some LANGUAGE_CODES := by
  have hlk : (emptyCache.PropertiesFromId).lookup "v/I" = none := by decide
  have hint : isInternationalizationFromId intlCtx "v/I" = true := by decide
  have heval : getPropertiesFromId noEdgeGraph intlCtx 1 emptyCache "v/I"
      = some (dedupSort LANGUAGE_CODES,
          emptyCache.insertProps "v/I" (dedupSort LANGUAGE_CODES)) := by
    rw [getPropertiesFromId, hlk]
    dsimp only
    rw [if_pos hint]
  rw [heval]
  simp only [Option.map_some', ne_eq, Option.some.injEq]
  intro hcontra
  have hnodup : LANGUAGE_CODES.Nodup := hcontra ▸ nodup_dedupSort LANGUAGE_CODES
  have hget : LANGUAGE_CODES.get ⟨20, by decide⟩ = LANGUAGE_CODES.get ⟨21, by decide⟩ := by decide
  have := (List.Nodup.get_inj_iff hnodup).mp hget
  simp at this

/-- Claim C2 (amended): for any id whose matching context entry carries
`@container: @language`, `getPropertiesFromId` returns exactly the
deduplicated and sorted language-code list regardless of graph edges
(on a cache miss), and `getTypedPropertiesFromId` returns the raw
language-code list as labels, every entry marked `required = false`
with type `string`. -/
theorem claim_C2_amended (g : DigitalTwinMetaModelGraph)
    (dtContext : DigitalTwinMetaModelContext) (id : String)
    (hint : isInternationalizationFromId dtContext id = true) :
    (∀ f st, st.PropertiesFromId.lookup id = none →
      getPropertiesFromId g dtContext (f + 1) st id
        = some (dedupSort LANGUAGE_CODES,
            st.insertProps id (dedupSort LANGUAGE_CODES))) ∧
    (∀ f st, st.TypedPropertiesFromId.lookup id = none →
      getTypedPropertiesFromId g dtContext f st id
        = some (intlTypedProps, st.insertTyped id intlTypedProps)) ∧
    (∀ tp ∈ intlTypedProps, tp.required = false ∧ tp.type = "string") := by
  refine ⟨fun f st hlk => ?_, fun f st hlk => ?_, fun tp htp => ?_⟩
  · rw [getPropertiesFromId, hlk]
    dsimp only
    rw [if_pos hint]
  · rw [getTypedPropertiesFromId, hlk]
    dsimp only
    rw [if_pos hint]
    rfl
  · simp only [intlTypedProps, List.mem_map] at htp
    obtain ⟨code, -, rfl⟩ := htp
    exact ⟨rfl, rfl⟩

/-- Witness for the amended claim C2 on an edgeless graph with the
flagged id `v/I`. -/
theorem claim_C2_witness :
    (getPropertiesFromId noEdgeGraph intlCtx 3 emptyCache "v/I"
      = some (dedupSort LANGUAGE_CODES,
          emptyCache.insertProps "v/I" (dedupSort LANGUAGE_CODES)))
    ∧ (getTypedPropertiesFromId noEdgeGraph intlCtx 3 emptyCache "v/I"
      = some (intlTypedProps, emptyCache.insertTyped "v/I" intlTypedProps)) := by
  refine ⟨(claim_C2_amended noEdgeGraph intlCtx "v/I" (by decide)).1 2 emptyCache (by decide),
    (claim_C2_amended noEdgeGraph intlCtx "v/I" (by decide)).2.1 3 emptyCache (by decide)⟩

/-- Claim C6: `getRequiredPropertiesFromType "Interface"` returns
exactly `["@id", "@type", "@context"]`, and every type name outside the
fixed static table yields the empty list. -/
theorem claim_C6 :
    getRequiredPropertiesFromType "Interface" = ["@id", "@type", "@context"]
    ∧ ∀ t, t ∉ knownRequiredTypeNames → getRequiredPropertiesFromType t = [] := by
  refine ⟨rfl, fun t ht => ?_⟩
  unfold getRequiredPropertiesFromType
  split <;> simp_all [knownRequiredTypeNames]

/-- Witness for claim C6 at the concrete type name `Widget`, which is
outside the static table. -/
theorem claim_C6_witness :
    "Widget" ∉ knownRequiredTypeNames
    ∧ getRequiredPropertiesFromType "Widget" = [] :=
  ⟨by decide, claim_C6.2 "Widget" (by decide)⟩

/-- Claim C7: for an array of two objects both carrying the string
property `name = "temp"`, the duplicate-name check produces exactly one
issue, spanning the `name` value of the second occurrence. -/
theorem claim_C7 (spA sp1 sp2 n1 n2 : Json.Span)
    (props1 props2 : List (Json.PropName × Json.Value))
    (h1 : Json.lookupProp "name" props1 = some (.str n1 "temp"))
    (h2 : Json.lookupProp "name" props2 = some (.str n2 "temp")) :
    getArrayElementNameIssues
      (.arr spA [.obj sp1 props1, .obj sp2 props2]) false
      = [⟨n2.startIndex, n2.endIndex,
          "temp has already been assigned to another item."⟩] := by
  simp [getArrayElementNameIssues, arrayNameScan, h1, h2]

/-- Witness for claim C7 at concrete objects and spans. -/
theorem claim_C7_witness :
    getArrayElementNameIssues (.arr ⟨0, 32⟩ [c7obj1, c7obj2]) false
      = [⟨26, 31, "temp has already been assigned to another item."⟩] :=
  claim_C7 ⟨0, 32⟩ ⟨0, 14⟩ ⟨17, 31⟩ ⟨9, 14⟩ ⟨26, 31⟩ _ _ rfl rfl

/-- Claim C8: for a contextual key whose resolved raw value types are
exactly `["int"]`, the numeric literal `3.5` yields exactly one
integrality issue (`Invalid value. Valid value is int.`) from the
type-compatibility pass; for the same key with resolved value types
`["float"]`, the literal `3.5` yields no issue. -/
theorem claim_C8 (dtContext : DigitalTwinMetaModelContext)
    (rfuel dfuel : Nat) (document : TextDocument) (sp : Json.Span)
    (key id : String)
    (hkey : isArrayFromShortName key = false)
    (hid : getIdFromShortName dtContext key = some id)
    (hne : id.isEmpty = false) :
    (∀ g st stI, getValueTypesFromId g dtContext rfuel st id = some (["int"], stI) →
      getTypeIssues g dtContext rfuel (dfuel + 1) st document
        (.num sp (mkRat 7 2)) (some key) false
      = some ([⟨sp.startIndex, sp.endIndex,
          "Invalid value. Valid value is int."⟩], stI)) ∧
    (∀ g st stF, getValueTypesFromId g dtContext rfuel st id = some (["float"], stF) →
      getTypeIssues g dtContext rfuel (dfuel + 1) st document
        (.num sp (mkRat 7 2)) (some key) false
      = some ([], stF)) := by
  constructor
  · intro g st stI hvt
    rw [getTypeIssues]
    simp only [hkey, hid, hne, hvt]
    simp only [Bool.not_false, Bool.false_eq_true, and_false, if_false, false_and]
    rw [if_pos (show ((mkRat 7 2).floor : Rat) ≠ mkRat 7 2 by decide)]
    have hmsg : "Invalid value. Valid value is " ++ ", ".intercalate ["int"] ++ "."
        = "Invalid value. Valid value is int." := by decide
    rw [hmsg]
    rw [if_pos (by decide)]
  · intro g st stF hvt
    rw [getTypeIssues]
    simp only [hkey, hid, hne, hvt]
    simp only [Bool.not_false, Bool.false_eq_true, and_false, if_false, false_and]
    rw [if_neg (by decide)]

/-- Witness for claim C8 on concrete graphs resolving `temperature` to
`int` and to `float` respectively. -/
theorem claim_C8_witness :
    (getTypeIssues c8intGraph c8ctx 2 1 emptyCache c8doc
        (.num ⟨10, 12⟩ (mkRat 7 2)) (some "temperature") false
      = some ([⟨10, 12, "Invalid value. Valid value is int."⟩], c8intCache))
    ∧ (getTypeIssues c8floatGraph c8ctx 2 1 emptyCache c8doc
        (.num ⟨10, 12⟩ (mkRat 7 2)) (some "temperature") false
      = some ([], c8floatCache)) := by
  constructor
  · refine (claim_C8 c8ctx 2 0 c8doc ⟨10, 12⟩ "temperature" "v/temperature"
      (by decide) (by decide) (by decide)).1 c8intGraph emptyCache c8intCache ?_
    simp only [getValueTypesFromId, getStringValuesFromId, goStringValues,
      c8intGraph, c8ctx, emptyCache, c8intCache, List.lookup]
    decide
  · refine (claim_C8 c8ctx 2 0 c8doc ⟨10, 12⟩ "temperature" "v/temperature"
      (by decide) (by decide) (by decide)).2 c8floatGraph emptyCache c8floatCache ?_
    simp only [getValueTypesFromId, getStringValuesFromId, goStringValues,
      c8floatGraph, c8ctx, emptyCache, c8floatCache, List.lookup]
    decide

/-- Claim C9: for every document text that fails JSON parsing,
`getIssues` returns the empty issue list with the cache unchanged
(validation is a no-op on malformed input). -/
theorem claim_C9 (g : DigitalTwinMetaModelGraph)
    (dtContext : DigitalTwinMetaModelContext) (rfuel dfuel : Nat)
    (st : PCache) (document : TextDocument)
    (h : Json.parse document.text = none) :
    getIssues g dtContext rfuel dfuel st document = some ([], st) := by
  unfold getIssues
  rw [h]

/-- Witness for claim C9 on the malformed document consisting of a
lone opening brace. -/
theorem claim_C9_witness :
    Json.parse ("\x7b" : String) = none
    ∧ getIssues noEdgeGraph smallCtx 1 1 emptyCache
        { text := "\x7b", fsPath := "a.interface.json" } = some ([], emptyCache) := by
  have hp : Json.parse ("\x7b" : String) = none := by
    simp [Json.parse, Json.parseValue, Json.parseObjectBody, Json.parseArrayBody,
      Json.skipWs, Json.scanString, Json.scanDigits, Char.ofNat]
  exact ⟨hp, claim_C9 noEdgeGraph smallCtx 1 1 emptyCache _ hp⟩

/-- Claim C10: `getStringValuesFromShortName` returns exactly
`["XMLSchema#string"]` whenever the short name resolves to the id
`http://azureiot.com/v1/classes/InterfaceInstance/schema`, bypassing
the graph traversal and the cache entirely, and returns the empty list
for any short name with no context mapping. -/
theorem claim_C10 (g : DigitalTwinMetaModelGraph)
    (dtContext : DigitalTwinMetaModelContext) (rfuel : Nat) (st : PCache)
    (shortName : String) :
    (getIdFromShortName dtContext shortName
        = some "http://azureiot.com/v1/classes/InterfaceInstance/schema" →
      getStringValuesFromShortName g dtContext rfuel st shortName
        = some (["XMLSchema#string"], st)) ∧
    (getIdFromShortName dtContext shortName = none →
      getStringValuesFromShortName g dtContext rfuel st shortName
        = some ([], st)) := by
  constructor
  · intro h
    unfold getStringValuesFromShortName
    rw [h]
    dsimp only
    rw [if_pos rfl]
  · intro h
    unfold getStringValuesFromShortName
    rw [h]

/-- Witness for claim C10 on a context mapping `schema2` to the magic
id and lacking `missing`. -/
theorem claim_C10_witness :
    (getStringValuesFromShortName noEdgeGraph c10ctx 1 emptyCache "schema2"
      = some (["XMLSchema#string"], emptyCache))
    ∧ (getStringValuesFromShortName noEdgeGraph c10ctx 1 emptyCache "missing"
      = some ([], emptyCache)) :=
  ⟨(claim_C10 noEdgeGraph c10ctx 1 emptyCache "schema2").1 (by decide),
   (claim_C10 noEdgeGraph c10ctx 1 emptyCache "missing").2 (by decide)⟩

/-- Claim C3, counterexample: with `v/A subClassOf v/B`,
`v/B subClassOf v/C` and a property `p` whose domain is `v/B`, if
`v/A` is internationalization-flagged then `getPropertiesFromId v/A`
short-circuits to the language-code list and is not a superset of
`getPropertiesFromId v/B = ["p"]`. -/
theorem claim_C3_counterexample :
    getPropertiesFromId c3g c3ctx 3 emptyCache "v/A"
      = some (dedupSort LANGUAGE_CODES,
          emptyCache.insertProps "v/A" (dedupSort LANGUAGE_CODES))
    ∧ getPropertiesFromId c3g c3ctx 3 emptyCache "v/B"
      = some (["p"], (emptyCache.insertProps "v/C" []).insertProps "v/B" ["p"])
    ∧ ¬ ∀ x ∈ (["p"] : List String), x ∈ dedupSort LANGUAGE_CODES := by
  refine ⟨?_, ?_, ?_⟩
  · have hlk : (emptyCache.PropertiesFromId).lookup "v/A" = none := by decide
    rw [getPropertiesFromId, hlk]
    dsimp only
    rw [if_pos (by decide)]
  · simp only [getPropertiesFromId, goProperties, c3g, c3ctx, emptyCache,
      List.lookup]
    decide
  · intro hsub
    have hp := hsub "p" (by simp)
    rw [mem_dedupSort] at hp
    revert hp
    decide

/-- Claim C3 (amended): for every graph in which `A subClassOf B` and
`B subClassOf C` via explicit edges, provided none of `A`, `B`, `C` is
internationalization-flagged, every successful resolution from the
empty cache satisfies the inclusions: `getPropertiesFromId B` is
contained in `getPropertiesFromId A`, and the property name of every
`domain` edge targeting `C` is contained in `getPropertiesFromId B`. -/
theorem claim_C3_amended (g : DigitalTwinMetaModelGraph)
    (dtContext : DigitalTwinMetaModelContext) (A B C : String)
    (eAB eBC : GraphEdge)
    (hABmem : eAB ∈ g.Edges) (hABsrc : eAB.SourceNode.Id = A)
    (hABtgt : eAB.TargetNode.Id = B) (hABlab : eAB.Label = LABEL.SUBCLASS)
    (hBCmem : eBC ∈ g.Edges) (hBCsrc : eBC.SourceNode.Id = B)
    (hBCtgt : eBC.TargetNode.Id = C) (hBClab : eBC.Label = LABEL.SUBCLASS)
    (hintA : isInternationalizationFromId dtContext A = false)
    (hintB : isInternationalizationFromId dtContext B = false)
    (hintC : isInternationalizationFromId dtContext C = false)
    (fA fB : Nat) (stA stB : PCache) (vA vB : List String)
    (hA : getPropertiesFromId g dtContext fA emptyCache A = some (vA, stA))
    (hB : getPropertiesFromId g dtContext fB emptyCache B = some (vB, stB)) :
    (∀ x ∈ vB, x ∈ vA) ∧
    (∀ e ∈ g.Edges, e.Label = LABEL.DOMAIN → e.TargetNode.Id = C →
      getPropertyNameFromId dtContext e.SourceNode.Id ∈ vB) := by
  obtain ⟨⟨fA', hpA⟩, -⟩ := getPropertiesFromId_agrees g dtContext fA emptyCache A vA stA
    (propsCacheOK_empty g dtContext) hA
  obtain ⟨⟨fB', hpB⟩, -⟩ := getPropertiesFromId_agrees g dtContext fB emptyCache B vB stB
    (propsCacheOK_empty g dtContext) hB
  obtain ⟨fA2, psA, hgoA, hvA⟩ := purePropertiesFromId_unfold hpA hintA
  obtain ⟨fB2, psB, hgoB, hvB⟩ := purePropertiesFromId_unfold hpB hintB
  constructor
  · obtain ⟨subB, hsubB, hmemB⟩ :=
      purePropsGo_subclass_subset eAB hABsrc hABlab hABmem hgoA
    rw [hABtgt] at hsubB
    have hBeq : subB = vB := purePropertiesFromId_det hsubB hpB
    subst hBeq
    intro x hx
    rw [hvA, mem_dedupSort]
    exact hmemB x hx
  · obtain ⟨subC, hsubC, hmemC⟩ :=
      purePropsGo_subclass_subset eBC hBCsrc hBClab hBCmem hgoB
    rw [hBCtgt] at hsubC
    obtain ⟨fC2, psC, hgoC, hvC⟩ := purePropertiesFromId_unfold hsubC hintC
    intro e hemem helab hetgt
    have hname := purePropsGo_domain_mem e hetgt helab hemem hgoC
    have : getPropertyNameFromId dtContext e.SourceNode.Id ∈ subC := by
      rw [hvC, mem_dedupSort]
      exact hname
    rw [hvB, mem_dedupSort]
    exact hmemC _ this

/-- Witness for the amended claim C3 on a concrete three-class chain
with one domain edge into `v/C`. -/
theorem claim_C3_witness :
    (∀ x ∈ (["p"] : List String), x ∈ (["p"] : List String)) ∧
    (∀ e ∈ c3wG.Edges, e.Label = LABEL.DOMAIN → e.TargetNode.Id = "v/C" →
      getPropertyNameFromId c3wCtx e.SourceNode.Id ∈ (["p"] : List String)) := by
  refine claim_C3_amended c3wG c3wCtx "v/A" "v/B" "v/C"
    { SourceNode := { Id := "v/A" }, TargetNode := { Id := "v/B" },
      Label := LABEL.SUBCLASS }
    { SourceNode := { Id := "v/B" }, TargetNode := { Id := "v/C" },
      Label := LABEL.SUBCLASS }
    (by decide) rfl rfl rfl (by decide) rfl rfl rfl
    (by decide) (by decide) (by decide) 3 3
    (((emptyCache.insertProps "v/C" ["p"]).insertProps "v/B" ["p"]).insertProps "v/A" ["p"])
    ((emptyCache.insertProps "v/C" ["p"]).insertProps "v/B" ["p"])
    ["p"] ["p"] ?_ ?_
  · simp only [getPropertiesFromId, goProperties, c3wG, c3wCtx, emptyCache,
      List.lookup]
    decide
  · simp only [getPropertiesFromId, goProperties, c3wG, c3wCtx, emptyCache,
      List.lookup]
    decide

end DTW
